import Mathlib

set_option maxRecDepth 40000

/-!
Shallow embedding of the TOON codec core
(`packages/toon-parser/src/index.ts`) and proofs about it.

Modelling conventions:
* JS values in the supported model are the inductive `Value`.  JS numbers
  (finite float64) are modelled as exact rationals `Rat`; the float-specific
  behaviours (rounding of parsed literals, negative zero, `String(number)`
  rendering of non-integers) are approximated and documented at the
  definitions that touch them.  No claim below depends on them.
* JS exceptions (`ToonError`) become `Except ToonErr`; `ToonErr` carries the
  exact message string and optional 1-based line number of the source.
* Mutable state (`state.nodes`, the decoder context stack, `root`,
  `rootContainer`, `indentStep`) is threaded explicitly.
* The TS decoder mutates containers that are already attached to their
  parents.  The embedding instead keeps each partially-built container in
  its stack frame together with the attachment destination (`Dest`) decided
  at push time, and attaches the finished container when the frame is
  popped.  Push-time observable effects of `attachValue` (error checks,
  the placeholder `filled` flag, creation of the root container) are
  performed at push time, exactly as in the source.
* Unbounded loops of the source (recursion over the value tree in the
  encoder, the frame-popping `while` loops in the decoder) use an explicit
  fuel argument so that every definition is structurally recursive and
  kernel-computable.  Fuel is always instantiated generously (encoder) or
  exactly (decoder pop loops, one unit per stack frame), and running out of
  fuel yields an error, never a spurious success.
-/

/-- JS value model: `JsonPrimitive` plus arrays and plain objects
(`string | number | boolean | null`, `unknown[]`, `Record<string, unknown>`).
Objects are insertion-ordered key/value lists, as JS objects are. -/
inductive Value where
  | null : Value
  | bool : Bool → Value
  | num : Rat → Value
  | str : String → Value
  | arr : List Value → Value
  | obj : List (String × Value) → Value

/-- `isPrimitive` from the source: null, string, number or boolean. -/
def isPrimitive : Value → Bool
  | .null => true
  | .bool _ => true
  | .num _ => true
  | .str _ => true
  | .arr _ => false
  | .obj _ => false

/-- `isPlainObject` from the source: in the value model exactly the `obj`
constructor (class instances, dates etc. are outside the model). -/
def isPlainObject : Value → Bool
  | .obj _ => true
  | _ => false

mutual
/-- Number of `Value` nodes; used only to compute encoder fuel. -/
def valueSize : Value → Nat
  | .null => 1
  | .bool _ => 1
  | .num _ => 1
  | .str _ => 1
  | .arr items => 1 + valueListSize items
  | .obj fields => 1 + fieldListSize fields

def valueListSize : List Value → Nat
  | [] => 0
  | v :: vs => valueSize v + valueListSize vs

def fieldListSize : List (String × Value) → Nat
  | [] => 0
  | (_, v) :: vs => valueSize v + fieldListSize vs
end

/-- `ToonError`: message plus optional 1-based line number. -/
structure ToonErr where
  message : String
  line : Option Nat
deriving Repr, DecidableEq

/-- `Limits` record (`maxDepth`, `maxArrayLength`, `maxTotalNodes`,
`disallowedKeys`). -/
structure Limits where
  maxDepth : Nat
  maxArrayLength : Nat
  maxTotalNodes : Nat
  disallowedKeys : List String
deriving Repr, DecidableEq

/-- `DEFAULT_LIMITS` from the source. -/
def DEFAULT_LIMITS : Limits :=
  { maxDepth := 64
    maxArrayLength := 50000
    maxTotalNodes := 250000
    disallowedKeys := ["__proto__", "constructor", "prototype"] }

/-- `SecurityOptions`: every field optional, defaults applied by
`applyLimits`. -/
structure SecurityOptions where
  maxDepth : Option Nat := none
  maxArrayLength : Option Nat := none
  maxTotalNodes : Option Nat := none
  disallowedKeys : Option (List String) := none

/-- `JsonToToonOptions`.  `indent` is an arbitrary integer before
validation, as in JS where any number can be passed. `delimiter` is one of
three characters in the source's type; it is modelled as `Char`. -/
structure JsonToToonOptions extends SecurityOptions where
  indent : Option Int := none
  delimiter : Option Char := none
  sortKeys : Option Bool := none

/-- `ToonToJsonOptions`. -/
structure ToonToJsonOptions extends SecurityOptions where
  strict : Option Bool := none

/-- `DEFAULT_DELIMITER`. -/
def DEFAULT_DELIMITER : Char := ','

/-- `applyLimits(options)`. -/
def applyLimits (options : SecurityOptions) : Limits :=
  { maxDepth := options.maxDepth.getD DEFAULT_LIMITS.maxDepth
    maxArrayLength := options.maxArrayLength.getD DEFAULT_LIMITS.maxArrayLength
    maxTotalNodes := options.maxTotalNodes.getD DEFAULT_LIMITS.maxTotalNodes
    disallowedKeys := options.disallowedKeys.getD DEFAULT_LIMITS.disallowedKeys }

/-! ## Character-level helpers and the source's regular expressions -/

/-- JS whitespace as far as the tokens of this format can contain it
(space, tab, CR, LF); used for `String.prototype.trim` and the `\s`
class.  (JS `\s` also contains form feed and unicode spaces, which no
claim exercises.) -/
def isWsChar (c : Char) : Bool :=
  c = ' ' || c = '\t' || c = '\n' || c = '\r'

/-- `text.trim()` on a character list. -/
def jsTrim (l : List Char) : List Char :=
  ((l.dropWhile isWsChar).reverse.dropWhile isWsChar).reverse

/-- `text.trim()` on a string. -/
def jsTrimStr (s : String) : String :=
  String.mk (jsTrim s.data)

/-- `s.startsWith(c)` for a single character, on the character list. -/
def strStartsWithChar (s : String) (c : Char) : Bool :=
  match s.data with
  | d :: _ => d = c
  | [] => false

/-- `s.endsWith(c)` for a single character, on the character list. -/
def strEndsWithChar (s : String) (c : Char) : Bool :=
  match s.data.getLast? with
  | some d => d = c
  | none => false

/-- `rawLine.replace(/[ \t]+$/, '')`. -/
def stripTrailingWs (l : List Char) : List Char :=
  (l.reverse.dropWhile (fun c => c = ' ' || c = '\t')).reverse

/-- `text.split(/\r?\n/)`: split at `\n`, swallowing one `\r` directly in
front of it; a lone `\r` stays in the line. -/
def splitLines : List Char → List (List Char)
  | [] => [[]]
  | c :: rest =>
    if c = '\n' then [] :: splitLines rest
    else if c = '\r' then
      match rest with
      | '\n' :: rest2 => [] :: splitLines rest2
      | [] => [[c]]
      | d :: rest2 =>
        match splitLines (d :: rest2) with
        | [] => [[c]]
        | l :: ls => (c :: l) :: ls
    else
      match splitLines rest with
      | [] => [[c]]
      | l :: ls => (c :: l) :: ls

def isDigitChar (c : Char) : Bool := '0' ≤ c && c ≤ '9'

def isAlphaChar (c : Char) : Bool :=
  ('a' ≤ c && c ≤ 'z') || ('A' ≤ c && c ≤ 'Z')

/-- `NUMERIC_RE = /^-?(?:0|[1-9]\d*)(?:\.\d+)?(?:[eE][+-]?\d+)?$/` -/
def numericRe (l : List Char) : Bool :=
  let l := match l with
    | '-' :: r => r
    | _ => l
  -- integer part: "0" or [1-9]\d*
  let intPart : Option (List Char) :=
    match l with
    | '0' :: r => some r
    | c :: r => if isDigitChar c then some (r.dropWhile isDigitChar) else none
    | [] => none
  match intPart with
  | none => false
  | some l =>
    -- optional fraction .\d+
    let fracPart : Option (List Char) :=
      match l with
      | '.' :: r =>
        if (r.takeWhile isDigitChar).isEmpty then none
        else some (r.dropWhile isDigitChar)
      | _ => some l
    match fracPart with
    | none => false
    | some l =>
      -- optional exponent [eE][+-]?\d+
      match l with
      | [] => true
      | e :: r =>
        if e = 'e' || e = 'E' then
          let r := match r with
            | '+' :: r2 => r2
            | '-' :: r2 => r2
            | _ => r
          !(r.takeWhile isDigitChar).isEmpty && (r.dropWhile isDigitChar).isEmpty
        else false

/-- `NUMERIC_LIKE_RE = /^-?\d+(?:\.\d+)?(?:e[+-]?\d+)?$/i` -/
def numericLikeRe (l : List Char) : Bool :=
  let l := match l with
    | '-' :: r => r
    | _ => l
  if (l.takeWhile isDigitChar).isEmpty then false
  else
    let l := l.dropWhile isDigitChar
    let fracPart : Option (List Char) :=
      match l with
      | '.' :: r =>
        if (r.takeWhile isDigitChar).isEmpty then none
        else some (r.dropWhile isDigitChar)
      | _ => some l
    match fracPart with
    | none => false
    | some l =>
      match l with
      | [] => true
      | e :: r =>
        if e = 'e' || e = 'E' then
          let r := match r with
            | '+' :: r2 => r2
            | '-' :: r2 => r2
            | _ => r
          !(r.takeWhile isDigitChar).isEmpty && (r.dropWhile isDigitChar).isEmpty
        else false

/-- `LEADING_ZERO_RE = /^0\d+$/` -/
def leadingZeroRe (l : List Char) : Bool :=
  match l with
  | '0' :: rest => !rest.isEmpty && rest.all isDigitChar
  | _ => false

/-- The unanchored test `/^-?0\d+/.test(trimmed)` used by
`parsePrimitiveToken`. -/
def leadingZeroTest (l : List Char) : Bool :=
  let l := match l with
    | '-' :: r => r
    | _ => l
  match l with
  | '0' :: c :: _ => isDigitChar c
  | _ => false

/-- `SAFE_KEY_RE = /^[A-Za-z_][A-Za-z0-9_.]*$/` -/
def safeKeyRe (l : List Char) : Bool :=
  match l with
  | [] => false
  | c :: rest =>
    (isAlphaChar c || c = '_') &&
      rest.all (fun d => isAlphaChar d || isDigitChar d || d = '_' || d = '.')

/-- Decimal digits to `Nat` (`parseInt(digits, 10)` on an all-digit
string, exact). -/
def natOfDigits (l : List Char) : Nat :=
  l.foldl (fun acc c => acc * 10 + (c.toNat - '0'.toNat)) 0

/-- The float64 overflow bound: JS number parsing yields `Infinity` at or
above roughly `2^1024`.  Used to model the `Number.isFinite` checks; exact
float rounding at the boundary is not modelled (no claim depends on it). -/
def floatOverflowBound : Rat :=
  179769313486231590772930519078902473361797697894230657273430081157732675805500963132708477322407536021120113879871393357658789768814416622492847430639474124377767893424865485276302219601246094119453082952085005768838150682342462881473913110540827237163350510684586298239947245938479716304835356329624224137216

/-- The same bound as a natural number (for `parseInt` results). -/
def natFloatOverflowBound : Nat :=
  179769313486231590772930519078902473361797697894230657273430081157732675805500963132708477322407536021120113879871393357658789768814416622492847430639474124377767893424865485276302219601246094119453082952085005768838150682342462881473913110540827237163350510684586298239947245938479716304835356329624224137216

/-- Value of a token already known to match `NUMERIC_RE`
(`Number(trimmed)` as an exact rational; float64 rounding is not
modelled). -/
def ratOfNumericToken (l : List Char) : Rat :=
  let (neg, l) := match l with
    | '-' :: r => (true, r)
    | _ => (false, l)
  let intDigits := l.takeWhile isDigitChar
  let l := l.dropWhile isDigitChar
  let (fracDigits, l) := match l with
    | '.' :: r => (r.takeWhile isDigitChar, r.dropWhile isDigitChar)
    | _ => ([], l)
  let (expNeg, expDigits) := match l with
    | 'e' :: '-' :: r => (true, r)
    | 'e' :: '+' :: r => (false, r)
    | 'e' :: r => (false, r)
    | 'E' :: '-' :: r => (true, r)
    | 'E' :: '+' :: r => (false, r)
    | 'E' :: r => (false, r)
    | _ => (false, [])
  let mantissa : Int := (natOfDigits intDigits) * 10 ^ fracDigits.length + natOfDigits fracDigits
  let mantissa : Int := if neg then -mantissa else mantissa
  let expVal : Nat := natOfDigits expDigits
  if expNeg then
    mkRat mantissa (10 ^ (fracDigits.length + expVal))
  else
    mkRat (mantissa * 10 ^ expVal) (10 ^ fracDigits.length)

/-- `String(value)` for a JS number.  Exact for integers (every integral
rational prints as its decimal digits, matching JS for safe integers);
non-integral rationals use the `num/den` rendering as a stand-in for the
float shortest-round-trip form, which no claim depends on. -/
def numToString (q : Rat) : String :=
  if q.den = 1 then toString q.num else toString q.num ++ "/" ++ toString q.den

/-! ## Scanners shared by encoder and decoder -/

/-- `findUnquotedColon(text)`: index of the first colon outside
double-quote spans (with backslash escapes), `none` for `-1`. -/
def findUnquotedColonAux : List Char → Bool → Bool → Nat → Option Nat
  | [], _, _, _ => none
  | c :: rest, inQuote, escape, i =>
    if escape then findUnquotedColonAux rest inQuote false (i + 1)
    else if c = '\\' then findUnquotedColonAux rest inQuote true (i + 1)
    else if c = '"' then findUnquotedColonAux rest (!inQuote) false (i + 1)
    else if !inQuote && c = ':' then some i
    else findUnquotedColonAux rest inQuote false (i + 1)

def findUnquotedColon (text : List Char) : Option Nat :=
  findUnquotedColonAux text false false 0

/-- `classifyTabularLine(line, delimiter)`: `true` = `'row'`,
`false` = `'field'`.  Scans unquoted characters for the first colon and
first delimiter; a line with no colon, or whose delimiter comes first, is
a data row. -/
def classifyTabularLineAux (delim : Char) :
    List Char → Bool → Bool → Nat → Option Nat → Option Nat → Bool
  | [], _, _, _, firstColon, firstDelim =>
    match firstColon, firstDelim with
    | none, _ => true
    | some _, none => false
    | some ci, some di => di < ci
  | c :: rest, inQuote, escape, i, firstColon, firstDelim =>
    if escape then classifyTabularLineAux delim rest inQuote false (i + 1) firstColon firstDelim
    else if c = '\\' then classifyTabularLineAux delim rest inQuote true (i + 1) firstColon firstDelim
    else if c = '"' then classifyTabularLineAux delim rest (!inQuote) false (i + 1) firstColon firstDelim
    else if inQuote then classifyTabularLineAux delim rest inQuote false (i + 1) firstColon firstDelim
    else
      let firstColon := if c = ':' && firstColon = none then some i else firstColon
      let firstDelim := if c = delim && firstDelim = none then some i else firstDelim
      classifyTabularLineAux delim rest inQuote false (i + 1) firstColon firstDelim

def classifyTabularLine (line : List Char) (delim : Char) : Bool :=
  classifyTabularLineAux delim line false false 0 none none

/-- `splitKeyHeader(token)`: split a pre-colon token at the first unquoted
`[` into the raw key and the bracket header (both trimmed); no `[` means
no header. -/
def splitKeyHeaderAux : List Char → Bool → Bool → Nat → Option Nat
  | [], _, _, _ => none
  | c :: rest, inQuote, escape, i =>
    if escape then splitKeyHeaderAux rest inQuote false (i + 1)
    else if c = '\\' then splitKeyHeaderAux rest inQuote true (i + 1)
    else if c = '"' then splitKeyHeaderAux rest (!inQuote) false (i + 1)
    else if !inQuote && c = '[' then some i
    else splitKeyHeaderAux rest inQuote false (i + 1)

def splitKeyHeader (token : String) : String × Option String :=
  match splitKeyHeaderAux token.data false false 0 with
  | some i =>
    (String.mk (jsTrim (token.data.take i)), some (String.mk (jsTrim (token.data.drop i))))
  | none => (String.mk (jsTrim token.data), none)

/-- `countLeadingSpaces(text, lineNo)`: count leading spaces, rejecting a
tab anywhere in the indent region. -/
def countLeadingSpacesAux (lineNo : Option Nat) : List Char → Nat → Except ToonErr Nat
  | [], count => .ok count
  | c :: rest, count =>
    if c = ' ' then countLeadingSpacesAux lineNo rest (count + 1)
    else if c = '\t' then .error ⟨"Tabs are not allowed for indentation.", lineNo⟩
    else .ok count

def countLeadingSpaces (text : List Char) (lineNo : Option Nat) : Except ToonErr Nat :=
  countLeadingSpacesAux lineNo text 0

/-- `decodeQuotedString` inner loop over the characters between the outer
quotes, with the escape flag. -/
def decodeQuotedAux (lineNo : Option Nat) : List Char → Bool → List Char → Except ToonErr (List Char)
  | [], escape, acc =>
    if escape then .error ⟨"Unterminated escape sequence.", lineNo⟩
    else .ok acc.reverse
  | c :: rest, true, acc =>
    if c = '"' || c = '\\' then decodeQuotedAux lineNo rest false (c :: acc)
    else if c = 'n' then decodeQuotedAux lineNo rest false ('\n' :: acc)
    else if c = 'r' then decodeQuotedAux lineNo rest false ('\r' :: acc)
    else if c = 't' then decodeQuotedAux lineNo rest false ('\t' :: acc)
    else .error ⟨"Invalid escape sequence \\" ++ String.mk [c] ++ ".", lineNo⟩
  | c :: rest, false, acc =>
    if c = '\\' then decodeQuotedAux lineNo rest true acc
    else decodeQuotedAux lineNo rest false (c :: acc)

/-- `decodeQuotedString(token, lineNo)`: token starts with `"`; must end
with `"`; unescape the middle. -/
def decodeQuotedString (token : String) (lineNo : Option Nat) : Except ToonErr String := do
  if !strEndsWithChar token '"' then .error ⟨"Unterminated string.", lineNo⟩
  else
    let middle := (token.data.drop 1).take (token.length - 2)
    let chars ← decodeQuotedAux lineNo middle false []
    .ok (String.mk chars)

/-- `splitDelimited` inner loop (current token accumulated reversed,
finished tokens accumulated reversed). -/
def splitDelimitedAux (delim : Char) (lineNo : Option Nat) :
    List Char → List Char → Bool → Bool → List String → Except ToonErr (List String)
  | [], current, inQuote, _, tokens =>
    if inQuote then .error ⟨"Unterminated quoted value.", lineNo⟩
    else .ok ((String.mk current.reverse :: tokens).reverse)
  | c :: rest, current, inQuote, true, tokens =>
    splitDelimitedAux delim lineNo rest (c :: current) inQuote false tokens
  | c :: rest, current, inQuote, false, tokens =>
    if c = '\\' then splitDelimitedAux delim lineNo rest (c :: current) inQuote true tokens
    else if c = '"' then splitDelimitedAux delim lineNo rest (c :: current) (!inQuote) false tokens
    else if !inQuote && c = delim then
      splitDelimitedAux delim lineNo rest [] inQuote false (String.mk current.reverse :: tokens)
    else splitDelimitedAux delim lineNo rest (c :: current) inQuote false tokens

/-- `splitDelimited(text, delimiter, lineNo)`: split outside quote spans;
error on an unterminated quote. -/
def splitDelimited (text : List Char) (delim : Char) (lineNo : Option Nat) :
    Except ToonErr (List String) :=
  splitDelimitedAux delim lineNo text [] false false []

/-- `parsePrimitiveToken(token, delimiter, lineNo, strict)`. -/
def parsePrimitiveToken (token : String) (delim : Char) (lineNo : Option Nat)
    (strict : Bool) : Except ToonErr Value :=
  if token = "" then .ok (.str "")
  else
    let trimmed := jsTrimStr token
    if trimmed ≠ token && strict then
      .error ⟨"Unquoted values may not contain leading or trailing whitespace.", lineNo⟩
    else if strStartsWithChar trimmed '"' then do
      let s ← decodeQuotedString trimmed lineNo
      .ok (.str s)
    else if trimmed = "true" then .ok (.bool true)
    else if trimmed = "false" then .ok (.bool false)
    else if trimmed = "null" then .ok .null
    else if leadingZeroTest trimmed.data then
      .error ⟨"Numbers with leading zeros must be quoted.", lineNo⟩
    else if numericRe trimmed.data then
      let num := ratOfNumericToken trimmed.data
      -- Number.isFinite: the parse overflows to Infinity at the float64 bound
      if num < -floatOverflowBound || floatOverflowBound < num then
        .error ⟨"Invalid numeric value.", lineNo⟩
      else .ok (.num num)
    else if strict && trimmed.data.contains delim then
      .error ⟨"Unquoted value contains the active delimiter.", lineNo⟩
    else .ok (.str trimmed)

/-- `decodeKey(token, delimiter, lineNo)`. -/
def decodeKey (token : String) (delim : Char) (lineNo : Option Nat) :
    Except ToonErr String :=
  let trimmed := jsTrimStr token
  if strStartsWithChar trimmed '"' then decodeQuotedString trimmed lineNo
  else if !safeKeyRe trimmed.data then .error ⟨"Invalid key token.", lineNo⟩
  else if trimmed.data.contains delim then
    .error ⟨"Key contains active delimiter and must be quoted.", lineNo⟩
  else .ok trimmed

/-! ## Encoder helpers -/

/-- One character of `escapeString`'s chained global replaces
(backslash first, so the rules compose to a character-wise map). -/
def escChar (c : Char) : List Char :=
  if c = '\\' then ['\\', '\\']
  else if c = '"' then ['\\', '"']
  else if c = '\n' then ['\\', 'n']
  else if c = '\r' then ['\\', 'r']
  else if c = '\t' then ['\\', 't']
  else [c]

/-- `escapeString(value)`. -/
def escapeString (value : String) : String :=
  String.mk (value.data.map escChar).flatten

/-- The `needsQuote` predicate of `encodeString`. -/
def needsQuote (value : String) (activeDelimiter documentDelimiter : Char) : Bool :=
  value.length = 0 ||
  (match value.data with | c :: _ => isWsChar c | [] => false) ||
  (match value.data.getLast? with | some c => isWsChar c | none => false) ||
  value = "true" || value = "false" || value = "null" ||
  numericLikeRe value.data ||
  leadingZeroRe value.data ||
  value.data.contains ':' ||
  value.data.contains '"' ||
  value.data.contains '\\' ||
  value.data.any (fun c => c = '[' || c = ']' || c = '\x7b' || c = '\x7d') ||
  value.data.any (fun c => c = '\n' || c = '\r' || c = '\t') ||
  value.data.contains activeDelimiter ||
  value.data.contains documentDelimiter ||
  value = "-" ||
  strStartsWithChar value '-'

/-- `encodeString(value, activeDelimiter, documentDelimiter)`. -/
def encodeString (value : String) (activeDelimiter documentDelimiter : Char) : String :=
  if !needsQuote value activeDelimiter documentDelimiter then value
  else "\"" ++ escapeString value ++ "\""

/-- `encodePrimitive(value, activeDelimiter, documentDelimiter)`.  The
`Number.isFinite` throw is unreachable in the model (`Rat` has no
NaN/Infinity) and negative zero is not distinguishable from zero in `Rat`
(the `-0` literal branch is therefore not modelled); the `arr`/`obj`
cases are never reached (guarded by `isPrimitive` at every call site). -/
def encodePrimitive (value : Value) (activeDelimiter documentDelimiter : Char) : String :=
  match value with
  | .null => "null"
  | .bool b => if b then "true" else "false"
  | .num q => numToString q
  | .str s => encodeString s activeDelimiter documentDelimiter
  | .arr _ => ""
  | .obj _ => ""

/-- `encodeKey(key, activeDelimiter)`. -/
def encodeKey (key : String) (activeDelimiter : Char) : String :=
  if safeKeyRe key.data && !key.data.contains activeDelimiter then key
  else "\"" ++ escapeString key ++ "\""

/-- `validateKeySafety(key, limits, lineNo)`. -/
def validateKeySafety (key : String) (limits : Limits) (lineNo : Option Nat) :
    Except ToonErr Unit :=
  if limits.disallowedKeys.contains key then
    .error ⟨"Disallowed key \"" ++ key ++ "\" to prevent prototype pollution.", lineNo⟩
  else .ok ()

/-- `bumpNodes(state, limits, count, lineNo)`: returns the new node
counter. -/
def bumpNodes (limits : Limits) (nodes count : Nat) (lineNo : Option Nat) :
    Except ToonErr Nat :=
  let n := nodes + count
  if n > limits.maxTotalNodes then
    .error ⟨"Node count " ++ toString n ++ " exceeds limit " ++
      toString limits.maxTotalNodes ++ ".", lineNo⟩
  else .ok n

/-- `enforceLimits(depth, limits, state)`. -/
def enforceLimits (depth : Nat) (limits : Limits) (nodes : Nat) : Except ToonErr Nat :=
  if depth > limits.maxDepth then
    .error ⟨"Maximum depth " ++ toString limits.maxDepth ++ " exceeded.", none⟩
  else bumpNodes limits nodes 1 none

/-- First value bound to a key (JS property lookup on a plain object). -/
def lookupField : List (String × Value) → String → Option Value
  | [], _ => none
  | (k, v) :: rest, f => if k = f then some v else lookupField rest f

/-- `primitiveLine(key, value, indent, activeDelimiter, limits)`. -/
def primitiveLine (key : Option String) (value : Value) (indentStr : String)
    (activeDelimiter : Char) (limits : Limits) : Except ToonErr String :=
  let encodedValue := encodePrimitive value activeDelimiter activeDelimiter
  match key with
  | none => .ok (indentStr ++ encodedValue)
  | some k => do
    validateKeySafety k limits none
    .ok (indentStr ++ encodeKey k activeDelimiter ++ ": " ++ encodedValue)

/-- `detectTabular(arr)`: fields of the first object, and the objects'
field lists as rows, when every element is a non-empty plain object whose
key count equals the first's and that has a primitive value under every
field of the first (key presence, not order).  `lookupField _ f ≠ none`
is `hasOwnProperty(f)`. -/
def detectTabular (arr : List Value) :
    Option (List String × List (List (String × Value))) :=
  match arr with
  | [] => none
  | first :: _ =>
    if !arr.all isPlainObject then none
    else
      match first with
      | .obj firstFields =>
        let fields := firstFields.map Prod.fst
        if fields.isEmpty then none
        else
          let rowOf : Value → List (String × Value) := fun item =>
            match item with
            | .obj fs => fs
            | _ => []
          let rowsOk := arr.all fun item =>
            let objFields := rowOf item
            objFields.length = fields.length &&
            fields.all fun f =>
              match lookupField objFields f with
              | some v => isPrimitive v
              | none => false
          if rowsOk then some (fields, arr.map rowOf) else none
      | _ => none

/-- The `rowOf` projection of `detectTabular` as a standalone function
(the source inlines it). -/
def rowOf (item : Value) : List (String × Value) :=
  match item with
  | .obj fs => fs
  | _ => []

/-- `' '.repeat` / `indentUnit.repeat(depth)`. -/
def strRepeat (s : String) : Nat → String
  | 0 => ""
  | n + 1 => s ++ strRepeat s n

/-- Per-call encoder configuration (captured by the closures in
`jsonToToon`). -/
structure EncCfg where
  limits : Limits
  indentUnit : String
  sortKeys : Bool

/-! ## The encoder (`jsonToToon` and its inner closures).

The mutual recursion over the value tree uses an explicit fuel argument
(first argument of each function); `jsonToToon` instantiates it with
`encFuel value`, which is provably more than the number of recursive
calls the source can make, so the fuel-exhaustion error is unreachable
from the public entry point. -/

/-- Call descriptor for the encoder's recursion: one constructor per
inner closure of `jsonToToon` (`encodeValue`, the two field loops,
`encodeObject`, `encodeArray`, the expanded-list item loop).  A single
structurally recursive function over fuel keeps every step
kernel-computable; the named wrappers below restore the source's
signatures. -/
inductive EncCall where
  | val (input : Value) (depth : Nat) (key : Option String)
  | objf (key : Option String) (objFields : List (String × Value)) (depth : Nat)
  | floop (entries : List (String × Value)) (nextDepth : Nat)
  | arrc (key : Option String) (arr : List Value) (depth : Nat)
  | items (itemList : List Value) (itemIndent : Nat)
  | ifloop (entries : List (String × Value)) (childDepth : Nat)

def encodeStep (cfg : EncCfg) (delim : Char) :
    Nat → EncCall → Nat → Except ToonErr (List String × Nat)
  | 0, _, _ => .error ⟨"Internal fuel exhausted.", none⟩
  | fuel + 1, call, nodes =>
    match call with
    | .val input depth key => do
      -- encodeValue(input, depth, key, activeDelimiter); the `Unsupported
      -- value type` throw is unreachable: `Value` covers exactly the model
      let nodes ← enforceLimits depth cfg.limits nodes
      match input with
      | .arr itemList => encodeStep cfg delim fuel (.arrc key itemList depth) nodes
      | .obj fields => encodeStep cfg delim fuel (.objf key fields depth) nodes
      | prim => do
        let line ← primitiveLine key prim (strRepeat cfg.indentUnit depth) delim cfg.limits
        .ok ([line], nodes)
    | .objf key objFields depth => do
      -- encodeObject(key, obj, depth, activeDelimiter)
      let nodes ← enforceLimits depth cfg.limits nodes
      let sortedEntries :=
        if cfg.sortKeys then objFields.mergeSort (fun a b => a.1 ≤ b.1) else objFields
      let pr := strRepeat cfg.indentUnit depth
      match key with
      | some k => do
        validateKeySafety k cfg.limits none
        let headerLine := pr ++ encodeKey k delim ++ ":"
        if sortedEntries.isEmpty then .ok ([headerLine], nodes)
        else do
          let (ls, nodes) ← encodeStep cfg delim fuel (.floop sortedEntries (depth + 1)) nodes
          .ok (headerLine :: ls, nodes)
      | none =>
        if depth > 0 && sortedEntries.isEmpty then
          -- empty anonymous object
          .ok ([], nodes)
        else
          encodeStep cfg delim fuel (.floop sortedEntries depth) nodes
    | .floop entries nextDepth =>
      -- the `for (const [childKey, childValue] of sortedEntries)` loop of
      -- encodeObject: per step, enforceLimits(nextDepth) then encodeValue
      match entries with
      | [] => .ok ([], nodes)
      | (ck, cv) :: rest => do
        let nodes ← enforceLimits nextDepth cfg.limits nodes
        let (ls1, nodes) ← encodeStep cfg delim fuel (.val cv nextDepth (some ck)) nodes
        let (ls2, nodes) ← encodeStep cfg delim fuel (.floop rest nextDepth) nodes
        .ok (ls1 ++ ls2, nodes)
    | .arrc key arr depth => do
      -- encodeArray(key, arr, depth, activeDelimiter)
      let nodes ← enforceLimits depth cfg.limits nodes
      match key with
      | some k => validateKeySafety k cfg.limits none
      | none => pure ()
      if arr.length > cfg.limits.maxArrayLength then
        .error ⟨"Array length " ++ toString arr.length ++ " exceeds limit " ++
          toString cfg.limits.maxArrayLength ++ ".", none⟩
      else
        let pr := strRepeat cfg.indentUnit depth
        let headerKey := match key with
          | none => ""
          | some k => encodeKey k delim
        if arr.all isPrimitive then do
          let encoded := String.intercalate (String.mk [delim])
            (arr.map (fun v => encodePrimitive v delim delim))
          let spacing := if arr.length > 0 then " " else ""
          let line := pr ++ headerKey ++ "[" ++ toString arr.length ++ "]:" ++ spacing ++ encoded
          let nodes ← bumpNodes cfg.limits nodes arr.length none
          .ok ([line], nodes)
        else
          match detectTabular arr with
          | some (fields, rows) => do
            let encodedFields := String.intercalate (String.mk [delim])
              (fields.map (fun f => encodeKey f delim))
            let headerLine := pr ++ headerKey ++ "[" ++ toString arr.length ++ "]\x7b" ++
              encodedFields ++ "\x7d:"
            let rowLines := rows.map fun row =>
              strRepeat cfg.indentUnit (depth + 1) ++
                String.intercalate (String.mk [delim])
                  (fields.map fun f => encodePrimitive ((lookupField row f).getD .null) delim delim)
            let nodes ← bumpNodes cfg.limits nodes (arr.length * fields.length) none
            .ok (headerLine :: rowLines, nodes)
          | none => do
            -- expanded list
            let headerLine := pr ++ headerKey ++ "[" ++ toString arr.length ++ "]:"
            let (ls, nodes) ← encodeStep cfg delim fuel (.items arr (depth + 1)) nodes
            .ok (headerLine :: ls, nodes)
    | .items itemList itemIndent =>
      -- the `for (const item of arr)` loop of the expanded-list branch;
      -- note: an all-primitive sub-array item is emitted inline directly,
      -- without encodeArray's maxArrayLength check
      match itemList with
      | [] => .ok ([], nodes)
      | item :: rest => do
        let nodes ← enforceLimits itemIndent cfg.limits nodes
        let itemPr := strRepeat cfg.indentUnit itemIndent
        let (ls1, nodes) ←
          match item with
          | .arr sub =>
            if sub.all isPrimitive then do
              let encoded := String.intercalate (String.mk [delim])
                (sub.map (fun v => encodePrimitive v delim delim))
              let spacing := if sub.length > 0 then " " else ""
              let line := itemPr ++ "- [" ++ toString sub.length ++ "]:" ++ spacing ++ encoded
              let nodes ← bumpNodes cfg.limits nodes sub.length none
              pure ([line], nodes)
            else do
              let (ls, nodes) ← encodeStep cfg delim fuel (.arrc none sub (itemIndent + 1)) nodes
              pure ((itemPr ++ "-") :: ls, nodes)
          | .obj objFields =>
            if objFields.isEmpty then pure ([itemPr ++ "-"], nodes)
            else do
              let (ls, nodes) ← encodeStep cfg delim fuel (.ifloop objFields (itemIndent + 1)) nodes
              pure ((itemPr ++ "-") :: ls, nodes)
          | prim => do
            let line := itemPr ++ "- " ++ encodePrimitive prim delim delim
            let nodes ← bumpNodes cfg.limits nodes 1 none
            pure ([line], nodes)
        let (ls2, nodes) ← encodeStep cfg delim fuel (.items rest itemIndent) nodes
        .ok (ls1 ++ ls2, nodes)
    | .ifloop entries childDepth =>
      -- the object-list-item field loop (no per-field enforceLimits)
      match entries with
      | [] => .ok ([], nodes)
      | (ck, cv) :: rest => do
        let (ls1, nodes) ← encodeStep cfg delim fuel (.val cv childDepth (some ck)) nodes
        let (ls2, nodes) ← encodeStep cfg delim fuel (.ifloop rest childDepth) nodes
        .ok (ls1 ++ ls2, nodes)

/-- `encodeValue(input, depth, key, activeDelimiter)`. -/
def encodeValue (cfg : EncCfg) (fuel : Nat) (input : Value) (depth : Nat)
    (key : Option String) (delim : Char) (nodes : Nat) :
    Except ToonErr (List String × Nat) :=
  encodeStep cfg delim fuel (.val input depth key) nodes

/-- `encodeObject(key, obj, depth, activeDelimiter)`. -/
def encodeObjectFields (cfg : EncCfg) (fuel : Nat) (key : Option String)
    (objFields : List (String × Value)) (depth : Nat) (delim : Char) (nodes : Nat) :
    Except ToonErr (List String × Nat) :=
  encodeStep cfg delim fuel (.objf key objFields depth) nodes

/-- `encodeArray(key, arr, depth, activeDelimiter)`. -/
def encodeArray (cfg : EncCfg) (fuel : Nat) (key : Option String)
    (arr : List Value) (depth : Nat) (delim : Char) (nodes : Nat) :
    Except ToonErr (List String × Nat) :=
  encodeStep cfg delim fuel (.arrc key arr depth) nodes

/-- Fuel for the encoder: strictly more than the number of recursive
calls made for a value (each call either consumes a `Value` node or one
list element, and each node/element accounts for at most a constant
number of calls). -/
def encFuel (v : Value) : Nat := 8 * valueSize v + 8

/-- `jsonToToon(value, options)`. -/
def jsonToToon (options : JsonToToonOptions) (value : Value) : Except ToonErr String :=
  let indentSize : Int := options.indent.getD 2
  if indentSize ≤ 0 then .error ⟨"Indent must be a positive integer.", none⟩
  else
    let delim := options.delimiter.getD DEFAULT_DELIMITER
    let limits := applyLimits options.toSecurityOptions
    let cfg : EncCfg :=
      { limits := limits
        indentUnit := strRepeat " " indentSize.toNat
        sortKeys := options.sortKeys.getD false }
    do
      let (lines, _) ← encodeValue cfg (encFuel value) value 0 none delim 0
      .ok (String.intercalate "\n" lines)

/-! ## Decoder data structures

The source mutates containers that are already attached to their parents.
Here each open container lives in its stack frame together with its
attachment destination (`Dest`), decided when the frame is pushed; the
finished container is attached when the frame is popped.  No line can
touch a parent while a deeper frame is open (its indent level would pop
the deeper frame first), so attach-on-pop is observably equivalent to the
source's attach-on-push. -/

/-- Where a finished container goes when its frame is popped. -/
inductive Dest where
  | root
  | intoKey (k : String)
  | intoList
  | intoPh
deriving Repr, DecidableEq

/-- `Container` from the source.  `phF` is the placeholder frame; its
`pending` holds the value assigned to it (the source's `assign` closure
pushes into the enclosing list at fill time; here the push happens when
the placeholder itself is popped, which no intervening line can observe). -/
inductive Frame where
  | objF (dest : Dest) (indent : Nat) (fields : List (String × Value))
  | listF (dest : Dest) (indent : Nat) (expectedLength : Option Nat)
      (delim : Char) (items : List Value)
  | tabF (dest : Dest) (indent : Nat) (expectedLength : Nat)
      (delim : Char) (fieldNames : List String) (rows : List Value)
  | phF (indent : Nat) (filled : Bool) (pending : Option Value)

def Frame.indentOf : Frame → Nat
  | .objF _ i _ => i
  | .listF _ i _ _ _ => i
  | .tabF _ i _ _ _ _ => i
  | .phF i _ _ => i

/-- Decoder state threaded through attachment and frame popping: the
context stack (head = deepest frame, the top of the source's array), the
`root` variable (`Value.null` is the JS `null` sentinel, exactly as in
the source where the decoded value `null` and "no root yet" are the same
JS value), `rootContainer !== null`, and the node counter.  The
`indentStep` closure variable is read and written only by the per-line
driver and is threaded separately by `processLine`/`processLinesLoop`. -/
structure DecState where
  contexts : List Frame
  rootVal : Value
  hasRootContainer : Bool
  nodes : Nat

def initState : DecState := ⟨[], .null, false, 0⟩

/-- JS `obj[k] = v` on an insertion-ordered object: overwrite in place if
the key exists, else append. -/
def setKey : List (String × Value) → String → Value → List (String × Value)
  | [], k, v => [(k, v)]
  | (k', v') :: rest, k, v =>
    if k' = k then (k', v) :: rest else (k', v') :: setKey rest k v

/-- `attachValue(value, parent, key, lineNo)` for a completed value, the
parent being the top of the stack (or none). -/
def attachValue (st : DecState) (value : Value) (key : Option String)
    (lineNo : Option Nat) : Except ToonErr DecState :=
  match st.contexts with
  | [] =>
    match key with
    | some k =>
      -- ensureRootObject(), then `target.value[key] = value`
      if st.hasRootContainer then
        -- unreachable: the root container frame is never popped mid-stream,
        -- so the stack cannot be empty while it exists
        .error ⟨"Invalid parent container.", none⟩
      else
        .ok { st with
          contexts := [.objF .root 0 [(k, value)]]
          hasRootContainer := true
          rootVal := .obj [] }
    | none =>
      match st.rootVal with
      | .null => .ok { st with rootVal := value }
      | _ => .error ⟨"Multiple root values detected.", lineNo⟩
  | .objF dest indent fields :: rest =>
    match key with
    | none => .error ⟨"Missing key for object assignment.", none⟩
    | some k =>
      .ok { st with contexts := .objF dest indent (setKey fields k value) :: rest }
  | .listF dest indent exp delim items :: rest =>
    .ok { st with contexts := .listF dest indent exp delim (items ++ [value]) :: rest }
  | .phF indent filled _ :: rest =>
    if filled then .error ⟨"List item already filled.", lineNo⟩
    else .ok { st with contexts := .phF indent true (some value) :: rest }
  | .tabF _ _ _ _ _ _ :: _ => .error ⟨"Invalid parent container.", none⟩

/-- The push-time half of `attachValue` when the attached value is a fresh
container that a new frame will fill: performs the same checks and state
effects as `attachValue` and returns the destination for the eventual
attach-on-pop. -/
def openContainer (st : DecState) (key : Option String) (lineNo : Option Nat) :
    Except ToonErr (DecState × Dest) :=
  match st.contexts with
  | [] =>
    match key with
    | some k =>
      if st.hasRootContainer then
        .error ⟨"Invalid parent container.", none⟩
      else
        .ok ({ st with
          contexts := [.objF .root 0 []]
          hasRootContainer := true
          rootVal := .obj [] }, .intoKey k)
    | none =>
      match st.rootVal with
      | .null => .ok (st, .root)
      | _ => .error ⟨"Multiple root values detected.", lineNo⟩
  | .objF _ _ _ :: _ =>
    match key with
    | none => .error ⟨"Missing key for object assignment.", none⟩
    | some k => .ok (st, .intoKey k)
  | .listF _ _ _ _ _ :: _ => .ok (st, .intoList)
  | .phF indent filled pending :: rest =>
    if filled then .error ⟨"List item already filled.", lineNo⟩
    else .ok ({ st with contexts := .phF indent true pending :: rest }, .intoPh)
  | .tabF _ _ _ _ _ _ :: _ => .error ⟨"Invalid parent container.", none⟩

/-- `finalizeContainer(container, lineNo)`: the strict-mode length/fill
checks run when a frame is popped. -/
def finalizeContainer (strict : Bool) (f : Frame) (lineNo : Nat) : Except ToonErr Unit :=
  match f with
  | .tabF _ _ expectedLength _ _ rows =>
    if strict && rows.length ≠ expectedLength then
      .error ⟨"Tabular array length mismatch: expected " ++ toString expectedLength ++
        ", got " ++ toString rows.length ++ ".", some lineNo⟩
    else .ok ()
  | .listF _ _ expectedLength _ items =>
    match expectedLength with
    | some n =>
      if strict && items.length ≠ n then
        .error ⟨"List length mismatch: expected " ++ toString n ++
          ", got " ++ toString items.length ++ ".", some lineNo⟩
      else .ok ()
    | none => .ok ()
  | .phF _ filled _ =>
    if strict && !filled then
      .error ⟨"List item is empty where a value was expected.", some lineNo⟩
    else .ok ()
  | .objF _ _ _ => .ok ()

/-- Pop the top frame: run its `finalizeContainer` checks and attach the
finished container to its recorded destination in the frame below (or the
root). -/
def popFrame (strict : Bool) (st : DecState) (lineNo : Nat) : Except ToonErr DecState := do
  match st.contexts with
  | [] => .ok st   -- unreachable: callers only pop non-empty stacks
  | top :: rest => do
    finalizeContainer strict top lineNo
    match top with
    | .phF _ _ pending =>
      match pending with
      | none => .ok { st with contexts := rest }
      | some v =>
        match rest with
        | .listF d i e dl items :: rest2 =>
          .ok { st with contexts := .listF d i e dl (items ++ [v]) :: rest2 }
        | _ => .error ⟨"Invalid parent container.", none⟩
    | _ =>
      let v : Value := match top with
        | .objF _ _ fields => .obj fields
        | .listF _ _ _ _ items => .arr items
        | .tabF _ _ _ _ _ rows => .arr rows
        | .phF _ _ _ => .null
      let dest : Dest := match top with
        | .objF d _ _ => d
        | .listF d _ _ _ _ => d
        | .tabF d _ _ _ _ _ => d
        | .phF _ _ _ => .intoList
      match dest, rest with
      | .root, _ => .ok { st with contexts := rest, rootVal := v }
      | .intoKey k, .objF d i fields :: rest2 =>
        .ok { st with contexts := .objF d i (setKey fields k v) :: rest2 }
      | .intoList, .listF d i e dl items :: rest2 =>
        .ok { st with contexts := .listF d i e dl (items ++ [v]) :: rest2 }
      | .intoPh, .phF i filled _ :: rest2 =>
        .ok { st with contexts := .phF i filled (some v) :: rest2 }
      | _, _ => .error ⟨"Invalid parent container.", none⟩

/-- The frame-popping loop of step 2 (pop every frame deeper than the
current line).  Fuel is instantiated with the stack height, which each
iteration decreases by one. -/
def popDeeper (strict : Bool) (level lineNo : Nat) : Nat → DecState → Except ToonErr DecState
  | 0, st => .ok st
  | fuel + 1, st =>
    match st.contexts with
    | [] => .ok st
    | top :: _ =>
      if level < top.indentOf then do
        let st ← popFrame strict st lineNo
        popDeeper strict level lineNo fuel st
      else .ok st

/-- The `fields.forEach((field, idx) => ...)` row-building loop: validate
each declared field, parse the positional cell (missing cells become the
empty token), count a node per cell. -/
def buildTabularRow (limits : Limits) (strict : Bool) (delim : Char) (lineNo : Nat) :
    List String → List String → List (String × Value) → Nat →
    Except ToonErr (List (String × Value) × Nat)
  | [], _, obj, nodes => .ok (obj, nodes)
  | field :: fs, cells, obj, nodes => do
    validateKeySafety field limits (some lineNo)
    let token := (cells.head?).getD ""
    let v ← parsePrimitiveToken token delim (some lineNo) strict
    let nodes ← bumpNodes limits nodes 1 (some lineNo)
    buildTabularRow limits strict delim lineNo fs cells.tail (setKey obj field v) nodes

/-- The tabular-row disambiguation loop of step 3: while the top frame is
a tabular frame at exactly this indent level, either consume the line as a
data row, or finalize and pop the frame and reinterpret the line.  Fuel is
the stack height plus one. -/
def tabularLoop (limits : Limits) (strict : Bool) (line : List Char)
    (level lineNo : Nat) : Nat → DecState → Except ToonErr (DecState × Bool)
  | 0, st => .ok (st, false)
  | fuel + 1, st =>
    match st.contexts with
    | .tabF dest indent expectedLength delim fields rows :: rest =>
      if level = indent then
        if classifyTabularLine line delim then do
          let cells ← splitDelimited line delim (some lineNo)
          if strict && cells.length ≠ fields.length then
            .error ⟨"Tabular row width mismatch: expected " ++ toString fields.length ++
              ", got " ++ toString cells.length ++ ".", some lineNo⟩
          else do
            let (rowObj, nodes) ← buildTabularRow limits strict delim lineNo fields cells [] st.nodes
            let rows := rows ++ [Value.obj rowObj]
            if rows.length > limits.maxArrayLength then
              .error ⟨"Tabular array length exceeds limit " ++
                toString limits.maxArrayLength ++ ".", some lineNo⟩
            else
              .ok ({ st with
                contexts := .tabF dest indent expectedLength delim fields rows :: rest
                nodes := nodes }, true)
        else do
          let st ← popFrame strict st lineNo
          tabularLoop limits strict line level lineNo fuel st
      else .ok (st, false)
    | _ => .ok (st, false)

/-- The header regex `^\[(\d+)([,\|\t])?\](\{(.+)\})?$`: digits, optional
delimiter marker, optional raw fields chunk (the middle of the greedy
brace group). -/
def matchHeaderShape (l : List Char) : Option (List Char × Option Char × Option (List Char)) :=
  match l with
  | '[' :: rest =>
    let digits := rest.takeWhile isDigitChar
    if digits.isEmpty then none
    else
      let rest := rest.dropWhile isDigitChar
      let (delimMark, rest) :=
        match rest with
        | c :: r => if c = ',' || c = '|' || c = '\t' then (some c, r) else (none, rest)
        | [] => (none, rest)
      match rest with
      | ']' :: rest2 =>
        match rest2 with
        | [] => some (digits, delimMark, none)
        | '\x7b' :: inner =>
          match inner.getLast? with
          | some '\x7d' =>
            if inner.length ≥ 2 then
              some (digits, delimMark, some (inner.take (inner.length - 1)))
            else none
          | _ => none
        | _ => none
      | _ => none
  | _ => none

/-- The decoder's `parseArrayHeader(token, lineNo)` closure (captures
`strict` and the comma fallback).  `parseInt` overflows to `Infinity` at
the float64 bound, failing the `Number.isFinite` check. -/
def parseArrayHeader (strict : Bool) (token : String) (lineNo : Nat) :
    Except ToonErr (Nat × Char × Option (List String)) :=
  match matchHeaderShape token.data with
  | none => .error ⟨"Invalid array header \"" ++ token ++ "\".", some lineNo⟩
  | some (digits, delimMark, fieldsRaw) =>
    let length := natOfDigits digits
    if natFloatOverflowBound ≤ length then .error ⟨"Invalid array length.", some lineNo⟩
    else
      let delim := delimMark.getD DEFAULT_DELIMITER
      match fieldsRaw with
      | none => .ok (length, delim, none)
      | some raw => do
        let toks ← splitDelimited raw delim (some lineNo)
        let fields ← toks.mapM (fun f => decodeKey f delim (some lineNo))
        if fields.length = 0 && strict then
          .error ⟨"Tabular arrays require at least one field.", some lineNo⟩
        else .ok (length, delim, some fields)

/-- `parseArrayHeaderFromList(token, lineNo)`: same shape, but no finite
check, no strict empty-fields check. -/
def parseArrayHeaderFromList (token : String) (lineNo : Nat) :
    Except ToonErr (Nat × Char × Option (List String)) :=
  match matchHeaderShape token.data with
  | none => .error ⟨"Invalid array header \"" ++ token ++ "\".", some lineNo⟩
  | some (digits, delimMark, fieldsRaw) =>
    let length := natOfDigits digits
    let delim := delimMark.getD DEFAULT_DELIMITER
    match fieldsRaw with
    | none => .ok (length, delim, none)
    | some raw => do
      let toks ← splitDelimited raw delim (some lineNo)
      let fields ← toks.mapM (fun f => decodeKey f delim (some lineNo))
      .ok (length, delim, some fields)

/-- `processKeyValueLine(indentLevel, keyToken, valueToken, lineNo,
parent)`; the source's `parent` is the current stack top at every call
site. -/
def processKeyValueLine (limits : Limits) (strict : Bool) (st : DecState)
    (indentLevel : Nat) (keyToken valueToken : String) (lineNo : Nat) :
    Except ToonErr DecState := do
  let (rawKey, header) := splitKeyHeader keyToken
  let key : Option String ←
    if rawKey = "" then pure none
    else do
      let k ← decodeKey rawKey DEFAULT_DELIMITER (some lineNo)
      pure (some k)
  match key with
  | some k => validateKeySafety k limits (some lineNo)
  | none => pure ()
  match header with
  | some headerTok => do
    let (length, delim, fieldsOpt) ← parseArrayHeader strict headerTok lineNo
    if length > limits.maxArrayLength then
      .error ⟨"Array length " ++ toString length ++ " exceeds limit " ++
        toString limits.maxArrayLength ++ ".", some lineNo⟩
    else
      match fieldsOpt with
      | some fields =>
        if valueToken ≠ "" then
          .error ⟨"Tabular array header must not have inline values.", some lineNo⟩
        else do
          let nodes ← bumpNodes limits st.nodes 1 (some lineNo)
          let (st, dest) ← openContainer { st with nodes := nodes } key (some lineNo)
          .ok { st with
            contexts := .tabF dest (indentLevel + 1) length delim fields [] :: st.contexts }
      | none =>
        if valueToken = "" then do
          let nodes ← bumpNodes limits st.nodes 1 (some lineNo)
          let (st, dest) ← openContainer { st with nodes := nodes } key (some lineNo)
          .ok { st with
            contexts := .listF dest (indentLevel + 1) (some length) delim [] :: st.contexts }
        else do
          let toks ← splitDelimited valueToken.data delim (some lineNo)
          let values ← toks.mapM (fun t => parsePrimitiveToken t delim (some lineNo) strict)
          if strict && values.length ≠ length then
            .error ⟨"Inline array length mismatch: expected " ++ toString length ++
              ", got " ++ toString values.length ++ ".", some lineNo⟩
          else do
            let st ← attachValue st (.arr values) key (some lineNo)
            let nodes ← bumpNodes limits st.nodes values.length (some lineNo)
            .ok { st with nodes := nodes }
  | none =>
    if valueToken = "" then do
      let (st, dest) ← openContainer st key (some lineNo)
      .ok { st with contexts := .objF dest (indentLevel + 1) [] :: st.contexts }
    else do
      let value ← parsePrimitiveToken valueToken DEFAULT_DELIMITER (some lineNo) strict
      let st ← attachValue st value key (some lineNo)
      let nodes ← bumpNodes limits st.nodes 1 (some lineNo)
      .ok { st with nodes := nodes }

/-- `parseListItem(line, list, indentLevel, lineNo, ...)`: the top frame
is the enclosing list frame (the caller checked it). -/
def parseListItem (limits : Limits) (strict : Bool) (st : DecState)
    (line : List Char) (indentLevel lineNo : Nat) : Except ToonErr DecState :=
  match st.contexts with
  | .listF dest indent exp ldelim items :: rest => do
    let trimmed := jsTrim line
    if !strStartsWithChar (String.mk trimmed) '-' then
      .error ⟨"List items must start with \"-\".", some lineNo⟩
    else
      let content := jsTrim (trimmed.drop 1)
      let contentStr := String.mk content
      if contentStr = "" then
        .ok { st with contexts := .phF (indentLevel + 1) false none :: st.contexts }
      else if strStartsWithChar contentStr '[' then do
        -- array list item (header on the same line)
        let colonIndex := findUnquotedColon content
        let headerToken := match colonIndex with
          | none => contentStr
          | some i => String.mk (jsTrim (content.take i))
        let valueToken := match colonIndex with
          | none => ""
          | some i => String.mk (jsTrim (content.drop (i + 1)))
        let (length, delim, fieldsOpt) ← parseArrayHeaderFromList headerToken lineNo
        if length > limits.maxArrayLength then
          .error ⟨"Array length " ++ toString length ++ " exceeds limit " ++
            toString limits.maxArrayLength ++ ".", some lineNo⟩
        else
          match fieldsOpt with
          | some fields =>
            if valueToken ≠ "" then
              .error ⟨"Tabular header in list item cannot have inline values.", some lineNo⟩
            else do
              let nodes ← bumpNodes limits st.nodes 1 (some lineNo)
              .ok { st with
                    nodes := nodes,
                    contexts := .tabF .intoList (indentLevel + 1) length delim fields [] :: st.contexts }
          | none =>
            if valueToken = "" then do
              let nodes ← bumpNodes limits st.nodes 1 (some lineNo)
              .ok { st with
                    nodes := nodes,
                    contexts := .listF .intoList (indentLevel + 1) (some length) delim [] :: st.contexts }
            else do
              let toks ← splitDelimited valueToken.data delim (some lineNo)
              let values ← toks.mapM (fun t => parsePrimitiveToken t delim (some lineNo) strict)
              if strict && values.length ≠ length then
                .error ⟨"Inline array length mismatch: expected " ++ toString length ++
                  ", got " ++ toString values.length ++ ".", some lineNo⟩
              else do
                let nodes ← bumpNodes limits st.nodes values.length (some lineNo)
                .ok { st with
                      nodes := nodes,
                      contexts := .listF dest indent exp ldelim (items ++ [.arr values]) :: rest }
      else
        match findUnquotedColon content with
        | some i => do
          -- inline object field: push the object into the list, open its
          -- frame, and process the key/value with it as parent
          let keyToken := String.mk (jsTrim (content.take i))
          let valueToken := String.mk (jsTrim (content.drop (i + 1)))
          let nodes ← bumpNodes limits st.nodes 1 (some lineNo)
          let st := { st with
                      nodes := nodes,
                      contexts := .objF .intoList (indentLevel + 1) [] :: st.contexts }
          processKeyValueLine limits strict st (indentLevel + 1) keyToken valueToken lineNo
        | none => do
          -- primitive value
          let value ← parsePrimitiveToken contentStr ldelim (some lineNo) strict
          let nodes ← bumpNodes limits st.nodes 1 (some lineNo)
          .ok { st with
                nodes := nodes,
                contexts := .listF dest indent exp ldelim (items ++ [value]) :: rest }
  | _ => .error ⟨"Invalid parent container.", none⟩   -- unreachable: caller checks

/-- Per-call decoder configuration. -/
structure DecCfg where
  limits : Limits
  strict : Bool

/-- Steps 2-5 of the per-line state machine: everything after the
indentation bookkeeping. -/
def processLineCore (cfg : DecCfg) (st : DecState) (line : List Char)
    (indentLevel lineNo : Nat) : Except ToonErr DecState := do
        let st ← popDeeper cfg.strict indentLevel lineNo st.contexts.length st
        let (st, consumed) ←
          tabularLoop cfg.limits cfg.strict line indentLevel lineNo (st.contexts.length + 1) st
        if consumed then .ok st
        else
          match st.contexts with
          | .listF _ lindent _ _ _ :: _ =>
            if indentLevel ≠ lindent then
              .error ⟨"List items must align under their header.", some lineNo⟩
            else parseListItem cfg.limits cfg.strict st line indentLevel lineNo
          | parentCtx => do
            match parentCtx with
            | .phF pindent _ _ :: _ =>
              if indentLevel ≠ pindent then
                .error ⟨"List item body must indent one level below \"-\".", some lineNo⟩
              else pure ()
            | _ => pure ()
            let parentIndent := match parentCtx with
              | [] => 0
              | f :: _ => f.indentOf
            if indentLevel ≠ parentIndent then
              .error ⟨"Unexpected indentation level.", some lineNo⟩
            else
              match findUnquotedColon line with
              | none =>
                -- possible root primitive
                if st.contexts.isEmpty then
                  match st.rootVal with
                  | .null => do
                    let value ← parsePrimitiveToken (String.mk (jsTrim line))
                      DEFAULT_DELIMITER (some lineNo) cfg.strict
                    let nodes ← bumpNodes cfg.limits st.nodes 1 (some lineNo)
                    .ok { st with rootVal := value, nodes := nodes }
                  | _ => .error ⟨"Expected key-value pair.", some lineNo⟩
                else .error ⟨"Expected key-value pair.", some lineNo⟩
              | some colonIndex => do
                let keyToken := String.mk (jsTrim (line.take colonIndex))
                let valueToken := String.mk (jsTrim (line.drop (colonIndex + 1)))
                processKeyValueLine cfg.limits cfg.strict st indentLevel keyToken valueToken lineNo

/-- The body of `lines.forEach` in `toonToJson`: skip blank lines, fix
the document indent step on the first non-blank line, validate the
indent, then run the rest of the per-line state machine. -/
def processLine (cfg : DecCfg) (st : DecState) (indentStep : Option Nat)
    (rawLine : List Char) (lineNo : Nat) : Except ToonErr (DecState × Option Nat) :=
  let trimmedEnd := stripTrailingWs rawLine
  if (jsTrim trimmedEnd).isEmpty then .ok (st, indentStep)   -- skip blank lines
  else do
    let indentSpaces ← countLeadingSpaces trimmedEnd (some lineNo)
    let step :=
      match indentStep with
      | some s => s
      | none => if indentSpaces = 0 then 2 else indentSpaces
    if indentSpaces % step ≠ 0 then
      .error ⟨"Inconsistent indentation: expected multiples of " ++
        toString step ++ " spaces.", some lineNo⟩
    else
      let indentLevel := indentSpaces / step
      if indentLevel > cfg.limits.maxDepth then
        .error ⟨"Maximum depth " ++ toString cfg.limits.maxDepth ++ " exceeded.", some lineNo⟩
      else do
        let st ← processLineCore cfg st (trimmedEnd.drop indentSpaces) indentLevel lineNo
        .ok (st, some step)

/-- `lines.forEach((rawLine, index) => ...)`. -/
def processLinesLoop (cfg : DecCfg) :
    List (List Char) → Nat → DecState → Option Nat →
    Except ToonErr (DecState × Option Nat)
  | [], _, st, indentStep => .ok (st, indentStep)
  | l :: rest, lineNo, st, indentStep => do
    let (st, indentStep) ← processLine cfg st indentStep l lineNo
    processLinesLoop cfg rest (lineNo + 1) st indentStep

/-- The final `while (contexts.length > 0)` loop. -/
def popAll (strict : Bool) (lineNo : Nat) : Nat → DecState → Except ToonErr DecState
  | 0, st => .ok st
  | fuel + 1, st =>
    match st.contexts with
    | [] => .ok st
    | _ :: _ => do
      let st ← popFrame strict st lineNo
      popAll strict lineNo fuel st

/-- `toonToJson(text, options)`. -/
def toonToJson (options : ToonToJsonOptions) (text : String) : Except ToonErr Value := do
  let limits := applyLimits options.toSecurityOptions
  let strict := options.strict.getD true
  let cfg : DecCfg := ⟨limits, strict⟩
  let lines := splitLines text.data
  let (st, _) ← processLinesLoop cfg lines 1 initState none
  let st ← popAll strict lines.length st.contexts.length st
  match st.rootVal with
  | .null => .ok (.obj [])
  | root => .ok root

/-! ## Spec-side definitions used to state the claims -/

/-- A chain of `n` nested singleton objects around a number. -/
def nestObj : Nat → Value
  | 0 => .num 1
  | n + 1 => .obj [("a", nestObj n)]

mutual
/-- Nesting depth of a value: number of nested containers (objects and
arrays) along the deepest path. -/
def nestingDepth : Value → Nat
  | .arr items => 1 + nestingDepthL items
  | .obj fields => 1 + nestingDepthF fields
  | _ => 0

def nestingDepthL : List Value → Nat
  | [] => 0
  | v :: vs => max (nestingDepth v) (nestingDepthL vs)

def nestingDepthF : List (String × Value) → Nat
  | [] => 0
  | (_, v) :: vs => max (nestingDepth v) (nestingDepthF vs)
end

/-- The non-blank lines of a document, after trailing-whitespace
stripping (the form the decoder processes). -/
def nonBlankLines (text : String) : List (List Char) :=
  ((splitLines text.data).map stripTrailingWs).filter (fun l => !(jsTrim l).isEmpty)

/-- Leading-space count of a line. -/
def leadingSpaces (l : List Char) : Nat :=
  (l.takeWhile (fun c => c = ' ')).length

/-- Blankness of a raw line, as the decoder determines it. -/
def isBlankLine (l : List Char) : Bool :=
  (jsTrim (stripTrailingWs l)).isEmpty

/-- The step a non-blank line contributes when it is the first one seen:
its leading-space count, or 2 when that count is zero. -/
def stepOfLine (l : List Char) : Nat :=
  if leadingSpaces (stripTrailingWs l) = 0 then 2
  else leadingSpaces (stripTrailingWs l)

/-- The indent step fixed by the decoder: contributed by the first
non-blank line; none when the document has no non-blank line. -/
def stepFromLines : List (List Char) → Option Nat
  | [] => none
  | l :: rest => if isBlankLine l then stepFromLines rest else some (stepOfLine l)

/-- The indent step the decoder fixes for a document. -/
def codeIndentStep (text : String) : Option Nat :=
  stepFromLines (splitLines text.data)

/-- The indent step as claim C4 words it: the leading-space count of the
first non-blank line whose indent is non-zero, defaulting to 2. -/
def claimIndentStep (text : String) : Nat :=
  match (nonBlankLines text).filter (fun l => leadingSpaces l ≠ 0) with
  | [] => 2
  | l :: _ => leadingSpaces l


/-! ## C1 -/

/-- C1, code_bug evidence.  The claim says decoding the encoding of any
supported value with default options returns the value; the repository's
own edge-case test asserts this for `{arr: [{}, {id: 1}]}`.  But the
encoder renders the empty-object item as a bare `-` line, and the strict
decoder's placeholder finalization rejects exactly that, so the default
(strict) round trip throws instead of returning the value. -/
theorem C1_roundtrip_code_bug :
    jsonToToon {} (.obj [("arr", .arr [.obj [], .obj [("id", .num 1)]])])
      = .ok "arr[2]:\n  -\n  -\n    id: 1" ∧
    toonToJson {} "arr[2]:\n  -\n  -\n    id: 1"
      = .error ⟨"List item is empty where a value was expected.", some 3⟩ :=
  ⟨rfl, rfl⟩

/-! ## C2: counterexample -/

/-- C2 counterexample.  The claim says every decoded tabular field name
and every encoded object key in the disallowed set makes the call fail.
But (1) strict decoding of a tabular header that declares zero rows with
field name `__proto__` succeeds (fields are only validated while
processing a data row), and (2) encoding an array of uniform objects
whose field name is `__proto__` succeeds (the tabular emission path never
calls `validateKeySafety` on field names). -/
theorem C2_counterexample :
    toonToJson {} "k[0]\x7b__proto__\x7d:" = .ok (.obj [("k", .arr [])]) ∧
    jsonToToon {} (.arr [.obj [("__proto__", .num 1)]])
      = .ok "[1]\x7b__proto__\x7d:\n  1" :=
  ⟨rfl, rfl⟩

/-! ## C3: counterexample -/

/-- C3 counterexample.  The claim says encoding fails whenever an array
is longer than `maxArrayLength` or nesting depth exceeds `maxDepth`.
But (1) an all-primitive sub-array list item is emitted inline without
the `maxArrayLength` check (here length 3 with limit 2), and (2) a value
whose container nesting depth is 65 > 64 encodes fine with the default
limit, because the anonymous root object's own body does not consume
output depth (a 66-deep chain does fail). -/
theorem C3_counterexample :
    jsonToToon { maxArrayLength := some 2 } (.arr [.arr [.num 1, .num 2, .num 3]])
      = .ok "[1]:\n  - [3]: 1,2,3" ∧
    nestingDepth (nestObj 65) = 65 ∧
    (jsonToToon {} (nestObj 65)).isOk = true :=
  ⟨rfl, rfl, by decide⟩

/-! ## C4: counterexample -/

/-- C4 counterexample.  The claim takes the indent step from the first
non-blank line whose indent is non-zero (here line 2, step 3, making both
indents 0 and 3 exact multiples, so the document should decode), but the
decoder fixes the step from the very first non-blank line — indent 0,
step 2 — and rejects line 2 as inconsistent indentation. -/
theorem C4_counterexample :
    toonToJson {} "a:\n   b: 1"
      = .error ⟨"Inconsistent indentation: expected multiples of 2 spaces.", some 2⟩ ∧
    claimIndentStep "a:\n   b: 1" = 3 ∧
    (nonBlankLines "a:\n   b: 1").all (fun l => leadingSpaces l % 3 = 0) = true :=
  ⟨rfl, rfl, rfl⟩

/-! ## C5: counterexample -/

/-- C5 counterexample.  The single non-blank line `null` is one scalar
token (the null literal, which `parsePrimitiveToken` decodes to null),
so by the claim the document should decode to null; but the decoder uses
JS `null` as its "no root yet" sentinel, so the root assignment is
invisible and the result is the empty object. -/
theorem C5_counterexample :
    parsePrimitiveToken "null" ',' (some 1) true = .ok .null ∧
    toonToJson {} "null" = .ok (.obj []) :=
  ⟨rfl, rfl⟩

/-! ## Small rewriting lemmas for the embedding's monadic plumbing -/

theorem except_bind_ok {α β : Type} (a : α) (f : α → Except ToonErr β) :
    (Except.ok a >>= f) = f a := rfl

theorem except_bind_error {α β : Type} (e : ToonErr) (f : α → Except ToonErr β) :
    ((Except.error e : Except ToonErr α) >>= f) = .error e := rfl

theorem isOk_error {α : Type} (e : ToonErr) :
    (Except.error e : Except ToonErr α).isOk = false := rfl

theorem isOk_ok {α : Type} (a : α) : (Except.ok a : Except ToonErr α).isOk = true := rfl

/-- Any `encodeArray` call on an array longer than the active
`maxArrayLength` fails, whatever the rest of the state. -/
theorem encodeStep_arrc_tooLong (cfg : EncCfg) (delim : Char) (fuel : Nat)
    (key : Option String) (arr : List Value) (depth nodes : Nat)
    (h : cfg.limits.maxArrayLength < arr.length) :
    (encodeStep cfg delim fuel (.arrc key arr depth) nodes).isOk = false := by
  cases fuel with
  | zero => rfl
  | succ n =>
    unfold encodeStep
    cases h1 : enforceLimits depth cfg.limits nodes with
    | error e => simp [h1, except_bind_error, isOk_error]
    | ok m =>
      cases key with
      | none => simp [h1, except_bind_ok, isOk_error, h]
      | some k =>
        cases h2 : validateKeySafety k cfg.limits none with
        | error e => simp [h1, h2, except_bind_ok, except_bind_error, isOk_error]
        | ok u => simp [h1, h2, except_bind_ok, isOk_error, h]

/-- Any root-level array longer than the active `maxArrayLength` makes
`jsonToToon` fail (with any options). -/
theorem jsonToToon_rootArray_tooLong (opts : JsonToToonOptions) (arr : List Value)
    (h : (applyLimits opts.toSecurityOptions).maxArrayLength < arr.length) :
    (jsonToToon opts (.arr arr)).isOk = false := by
  have hm : encFuel (Value.arr arr) = (8 * valueListSize arr + 15) + 1 := by
    unfold encFuel valueSize
    omega
  unfold jsonToToon
  dsimp only
  split
  · exact isOk_error _
  · rw [hm]
    unfold encodeValue
    unfold encodeStep
    cases h1 : enforceLimits 0 (applyLimits opts.toSecurityOptions) 0 with
    | error e => simp [h1, except_bind_error, isOk_error]
    | ok m =>
      have h2 := encodeStep_arrc_tooLong
        ⟨applyLimits opts.toSecurityOptions,
          strRepeat " " (Option.getD opts.indent 2).toNat,
          opts.sortKeys.getD false⟩
        (opts.delimiter.getD DEFAULT_DELIMITER) (8 * valueListSize arr + 15)
        none arr 0 m h
      cases h3 : encodeStep
          ⟨applyLimits opts.toSecurityOptions,
            strRepeat " " (Option.getD opts.indent 2).toNat,
            opts.sortKeys.getD false⟩
          (opts.delimiter.getD DEFAULT_DELIMITER) (8 * valueListSize arr + 15)
          (.arrc none arr 0) m with
      | error e => simp [h1, h3, except_bind_ok, except_bind_error, isOk_error]
      | ok p => rw [h3] at h2; simp [isOk_ok] at h2

/-- An object with `n` distinct fields, all scalar. -/
def manyFields (n : Nat) : List (String × Value) :=
  (List.range n).map (fun i => ("k" ++ toString i, Value.num 0))

/-- On a primitive value, `encodeValue` is `enforceLimits` followed by
`primitiveLine`. -/
theorem encodeStep_val_prim (cfg : EncCfg) (delim : Char) (cv : Value)
    (d : Nat) (key : Option String) (m fuel : Nat)
    (hcv : isPrimitive cv = true) :
    encodeStep cfg delim (fuel + 1) (.val cv d key) m =
      (do
        let m1 ← enforceLimits d cfg.limits m
        let line ← primitiveLine key cv (strRepeat cfg.indentUnit d) delim cfg.limits
        (.ok ([line], m1) : Except ToonErr (List String × Nat))) := by
  cases cv with
  | null => rfl
  | bool b => rfl
  | num q => rfl
  | str s => rfl
  | arr l => simp [isPrimitive] at hcv
  | obj l => simp [isPrimitive] at hcv

/-- `enforceLimits` success yields exactly one more node, within the
budget. -/
theorem enforceLimits_ok (d : Nat) (limits : Limits) (nodes m : Nat)
    (h : enforceLimits d limits nodes = .ok m) :
    m = nodes + 1 ∧ m ≤ limits.maxTotalNodes := by
  unfold enforceLimits bumpNodes at h
  by_cases hd : d > limits.maxDepth
  · simp [hd] at h
  · simp [hd] at h
    by_cases hb : nodes + 1 > limits.maxTotalNodes
    · simp [hb] at h
    · simp [hb] at h
      omega

/-- A field loop over primitive values fails whenever the node budget
cannot cover two nodes per field (one from `enforceLimits` in the loop,
one from the child's own `enforceLimits`). -/
theorem encodeStep_floop_prim_overBudget (cfg : EncCfg) (delim : Char) :
    ∀ (entries : List (String × Value)) (fuel nextDepth nodes : Nat),
    entries ≠ [] →
    (∀ p ∈ entries, isPrimitive p.2 = true) →
    cfg.limits.maxTotalNodes < nodes + 2 * entries.length →
    (encodeStep cfg delim fuel (.floop entries nextDepth) nodes).isOk = false := by
  intro entries
  induction entries with
  | nil => intro fuel nextDepth nodes hne _ _; exact absurd rfl hne
  | cons p rest ih =>
    intro fuel nextDepth nodes _ hprim hbudget
    cases fuel with
    | zero => rfl
    | succ n =>
      obtain ⟨ck, cv⟩ := p
      have hcv : isPrimitive cv = true := hprim (ck, cv) (by simp)
      rw [show encodeStep cfg delim (n + 1) (.floop ((ck, cv) :: rest) nextDepth) nodes
          = (do
              let m1 ← enforceLimits nextDepth cfg.limits nodes
              let r1 ← encodeStep cfg delim n (.val cv nextDepth (some ck)) m1
              let r2 ← encodeStep cfg delim n (.floop rest nextDepth) r1.2
              (.ok (r1.1 ++ r2.1, r2.2) : Except ToonErr (List String × Nat))) from rfl]
      cases h1 : enforceLimits nextDepth cfg.limits nodes with
      | error e => simp [h1, except_bind_error, isOk_error]
      | ok m1 =>
        have hm1 := enforceLimits_ok _ _ _ _ h1
        simp only [h1, except_bind_ok]
        cases n with
        | zero => simp [encodeStep, except_bind_error, isOk_error]
        | succ n2 =>
          rw [encodeStep_val_prim cfg delim cv nextDepth (some ck) m1 n2 hcv]
          cases h2 : enforceLimits nextDepth cfg.limits m1 with
          | error e => simp [h2, except_bind_error, isOk_error]
          | ok m2 =>
            have hm2 := enforceLimits_ok _ _ _ _ h2
            cases h3 : primitiveLine (some ck) cv
                (strRepeat cfg.indentUnit nextDepth) delim cfg.limits with
            | error e => simp [h2, h3, except_bind_ok, except_bind_error, isOk_error]
            | ok line =>
              simp only [h2, h3, except_bind_ok, except_bind_error]
              cases rest with
              | nil => exact absurd hm2.2 (by simp [List.length_cons] at hbudget; omega)
              | cons q rest2 =>
                have hih := ih (n2 + 1) nextDepth m2 (by simp)
                  (fun p hp => hprim p (List.mem_cons_of_mem _ hp))
                  (by simp only [List.length_cons] at hbudget ⊢; omega)
                cases h4 : encodeStep cfg delim (n2 + 1)
                    (.floop (q :: rest2) nextDepth) m2 with
                | error e => simp [h4, except_bind_error, isOk_error]
                | ok r => rw [h4] at hih; simp [isOk_ok] at hih

/-- A root object of primitive fields fails whenever the node budget
cannot cover two nodes per field. -/
theorem encodeStep_rootObj_overBudget (cfg : EncCfg) (delim : Char)
    (F : List (String × Value)) (fuel : Nat)
    (hsort : cfg.sortKeys = false) (hne : F ≠ [])
    (hprim : ∀ p ∈ F, isPrimitive p.2 = true)
    (hbudget : cfg.limits.maxTotalNodes < 2 + 2 * F.length) :
    (encodeStep cfg delim fuel (.val (.obj F) 0 none) 0).isOk = false := by
  cases fuel with
  | zero => rfl
  | succ n =>
    rw [show encodeStep cfg delim (n + 1) (.val (.obj F) 0 none) 0
        = (do
            let m1 ← enforceLimits 0 cfg.limits 0
            encodeStep cfg delim n (.objf none F 0) m1) from rfl]
    cases h1 : enforceLimits 0 cfg.limits 0 with
    | error e => simp [h1, except_bind_error, isOk_error]
    | ok m1 =>
      have hm1 := enforceLimits_ok _ _ _ _ h1
      simp only [h1, except_bind_ok]
      cases n with
      | zero => rfl
      | succ n2 =>
        rw [show encodeStep cfg delim (n2 + 1) (.objf none F 0) m1
            = (do
                let m2 ← enforceLimits 0 cfg.limits m1
                let sortedEntries :=
                  if cfg.sortKeys then F.mergeSort (fun a b => a.1 ≤ b.1) else F
                if 0 > 0 && sortedEntries.isEmpty then
                  (.ok ([], m2) : Except ToonErr (List String × Nat))
                else encodeStep cfg delim n2 (.floop sortedEntries 0) m2) from rfl]
        cases h2 : enforceLimits 0 cfg.limits m1 with
        | error e => simp [h2, except_bind_error, isOk_error]
        | ok m2 =>
          have hm2 := enforceLimits_ok _ _ _ _ h2
          simp only [h2, except_bind_ok, hsort]
          simp only [Bool.false_eq_true, if_false, gt_iff_lt, Nat.lt_irrefl,
            decide_False, Bool.false_and]
          exact encodeStep_floop_prim_overBudget cfg delim F n2 0 m2 hne hprim
            (by omega)

/-- The claim's third concrete: an all-scalar object with more fields
than half the node budget fails. -/
theorem jsonToToon_manyFields_overBudget :
    (jsonToToon { maxTotalNodes := some 100 } (.obj (manyFields 1000))).isOk = false := by
  unfold jsonToToon
  dsimp only
  unfold encodeValue
  have hov := encodeStep_rootObj_overBudget
    ⟨applyLimits ({ maxTotalNodes := some 100 } : JsonToToonOptions).toSecurityOptions,
      strRepeat " " ((({ maxTotalNodes := some 100 } : JsonToToonOptions).indent.getD 2)).toNat,
      ({ maxTotalNodes := some 100 } : JsonToToonOptions).sortKeys.getD false⟩
    (({ maxTotalNodes := some 100 } : JsonToToonOptions).delimiter.getD DEFAULT_DELIMITER)
    (manyFields 1000) (encFuel (.obj (manyFields 1000)))
    rfl
    (by simp [manyFields])
    (by intro p hp
        simp only [manyFields, List.mem_map] at hp
        obtain ⟨i, _, hi⟩ := hp
        rw [← hi]
        rfl)
    (by simp [manyFields, applyLimits])
  cases h4 : encodeStep
      ⟨applyLimits ({ maxTotalNodes := some 100 } : JsonToToonOptions).toSecurityOptions,
        strRepeat " " ((({ maxTotalNodes := some 100 } : JsonToToonOptions).indent.getD 2)).toNat,
        ({ maxTotalNodes := some 100 } : JsonToToonOptions).sortKeys.getD false⟩
      (({ maxTotalNodes := some 100 } : JsonToToonOptions).delimiter.getD DEFAULT_DELIMITER)
      (encFuel (.obj (manyFields 1000)))
      (.val (.obj (manyFields 1000)) 0 none) 0 with
  | error e => simp [h4, except_bind_error, isOk_error]
  | ok r => rw [h4] at hov; simp [isOk_ok] at hov

/-! ## C3: amended -/

/-- C3 (amended).  Encode resource ceilings, as the code enforces them:
a value whose encoding reaches indentation depth beyond `maxDepth` fails
(for an object chain this happens at `maxDepth + 2` nesting levels, so
the claim's 70-deep value fails under the default 64); every array that
reaches `encodeArray` — root, keyed or nested non-inline — fails when
longer than the active `maxArrayLength` (all-primitive sub-array list
items are the exception, per the counterexample), so the claim's
50 001-scalar array fails; exceeding `maxTotalNodes` fails, so the
claim's 1000-field object with `maxTotalNodes := 100` fails.  `Except`
results carry no partial output by construction. -/
theorem C3_limits_amended :
    (jsonToToon {} (nestObj 70)).isOk = false ∧
    (jsonToToon {} (.arr (List.replicate 50001 (.num 0)))).isOk = false ∧
    (jsonToToon { maxTotalNodes := some 100 } (.obj (manyFields 1000))).isOk = false ∧
    (∀ (opts : JsonToToonOptions) (arr : List Value),
      (applyLimits opts.toSecurityOptions).maxArrayLength < arr.length →
      (jsonToToon opts (.arr arr)).isOk = false) ∧
    (∀ (cfg : EncCfg) (fuel : Nat) (key : Option String) (arr : List Value)
      (depth : Nat) (delim : Char) (nodes : Nat),
      cfg.limits.maxArrayLength < arr.length →
      (encodeArray cfg fuel key arr depth delim nodes).isOk = false) := by
  refine ⟨by decide, ?_, jsonToToon_manyFields_overBudget, jsonToToon_rootArray_tooLong, ?_⟩
  · exact jsonToToon_rootArray_tooLong {} _
      (by rw [List.length_replicate]; simp [applyLimits, DEFAULT_LIMITS])
  · intro cfg fuel key arr depth delim nodes h
    exact encodeStep_arrc_tooLong cfg delim fuel key arr depth nodes h

/-- C3 witness: the amended universal parts applied at concrete inputs. -/
theorem C3_limits_amended_witness :
    (jsonToToon { maxArrayLength := some 2 } (.arr [.num 1, .num 2, .num 3])).isOk = false ∧
    (encodeArray ⟨⟨64, 2, 250000, []⟩, "  ", false⟩ 9 none [.num 1, .num 2, .num 3] 0 ',' 0).isOk
      = false :=
  ⟨C3_limits_amended.2.2.2.1 { maxArrayLength := some 2 } [.num 1, .num 2, .num 3] (by decide),
   C3_limits_amended.2.2.2.2 ⟨⟨64, 2, 250000, []⟩, "  ", false⟩ 9 none [.num 1, .num 2, .num 3]
     0 ',' 0 (by decide)⟩

/-- `validateKeySafety` cannot succeed on a disallowed key. -/
theorem validateKeySafety_ok_not_disallowed (k : String) (limits : Limits)
    (lineNo : Option Nat) (u : Unit)
    (h2 : validateKeySafety k limits lineNo = .ok u)
    (h : limits.disallowedKeys.contains k = true) : False := by
  unfold validateKeySafety at h2
  rw [if_pos h] at h2
  exact Except.noConfusion h2

/-- `encodeArray` with a disallowed key fails, whatever the rest. -/
theorem encodeStep_arrc_badKey (cfg : EncCfg) (delim : Char) (fuel : Nat)
    (k : String) (arr : List Value) (depth nodes : Nat)
    (h : cfg.limits.disallowedKeys.contains k = true) :
    (encodeStep cfg delim fuel (.arrc (some k) arr depth) nodes).isOk = false := by
  cases fuel with
  | zero => rfl
  | succ n =>
    unfold encodeStep
    cases h1 : enforceLimits depth cfg.limits nodes with
    | error e => simp [h1, except_bind_error, isOk_error]
    | ok m =>
      cases h2 : validateKeySafety k cfg.limits none with
      | error e => simp [h1, h2, except_bind_ok, except_bind_error, isOk_error]
      | ok u => exact absurd (validateKeySafety_ok_not_disallowed k cfg.limits none u h2 h) id

/-- `encodeObject` with a disallowed key fails, whatever the rest. -/
theorem encodeStep_objf_badKey (cfg : EncCfg) (delim : Char) (fuel : Nat)
    (k : String) (F : List (String × Value)) (depth nodes : Nat)
    (h : cfg.limits.disallowedKeys.contains k = true) :
    (encodeStep cfg delim fuel (.objf (some k) F depth) nodes).isOk = false := by
  cases fuel with
  | zero => rfl
  | succ n =>
    unfold encodeStep
    cases h1 : enforceLimits depth cfg.limits nodes with
    | error e => simp [h1, except_bind_error, isOk_error]
    | ok m =>
      cases h2 : validateKeySafety k cfg.limits none with
      | error e => simp [h1, h2, except_bind_ok, except_bind_error, isOk_error]
      | ok u => exact absurd (validateKeySafety_ok_not_disallowed k cfg.limits none u h2 h) id

/-- `encodeValue` with a disallowed key fails for every value shape. -/
theorem encodeStep_val_badKey (cfg : EncCfg) (delim : Char) (fuel : Nat)
    (k : String) (v : Value) (depth nodes : Nat)
    (h : cfg.limits.disallowedKeys.contains k = true) :
    (encodeStep cfg delim fuel (.val v depth (some k)) nodes).isOk = false := by
  cases fuel with
  | zero => rfl
  | succ n =>
    have hval : validateKeySafety k cfg.limits none
        = .error ⟨"Disallowed key \"" ++ k ++ "\" to prevent prototype pollution.", none⟩ := by
      unfold validateKeySafety
      rw [if_pos h]
    have hprimline : ∀ cv : Value, primitiveLine (some k) cv
        (strRepeat cfg.indentUnit depth) delim cfg.limits
        = .error ⟨"Disallowed key \"" ++ k ++ "\" to prevent prototype pollution.", none⟩ := by
      intro cv
      unfold primitiveLine
      simp [hval, except_bind_error]
    cases v with
    | arr l =>
      rw [show encodeStep cfg delim (n + 1) (.val (.arr l) depth (some k)) nodes
          = (do
              let m1 ← enforceLimits depth cfg.limits nodes
              encodeStep cfg delim n (.arrc (some k) l depth) m1) from rfl]
      cases h1 : enforceLimits depth cfg.limits nodes with
      | error e => simp [h1, except_bind_error, isOk_error]
      | ok m =>
        have := encodeStep_arrc_badKey cfg delim n k l depth m h
        cases h4 : encodeStep cfg delim n (.arrc (some k) l depth) m with
        | error e => simp [h1, h4, except_bind_ok, except_bind_error, isOk_error]
        | ok r => rw [h4] at this; simp [isOk_ok] at this
    | obj F =>
      rw [show encodeStep cfg delim (n + 1) (.val (.obj F) depth (some k)) nodes
          = (do
              let m1 ← enforceLimits depth cfg.limits nodes
              encodeStep cfg delim n (.objf (some k) F depth) m1) from rfl]
      cases h1 : enforceLimits depth cfg.limits nodes with
      | error e => simp [h1, except_bind_error, isOk_error]
      | ok m =>
        have := encodeStep_objf_badKey cfg delim n k F depth m h
        cases h4 : encodeStep cfg delim n (.objf (some k) F depth) m with
        | error e => simp [h1, h4, except_bind_ok, except_bind_error, isOk_error]
        | ok r => rw [h4] at this; simp [isOk_ok] at this
    | null =>
      rw [encodeStep_val_prim cfg delim .null depth (some k) nodes n rfl]
      cases h1 : enforceLimits depth cfg.limits nodes with
      | error e => simp [h1, except_bind_error, isOk_error]
      | ok m => simp [h1, hprimline .null, except_bind_ok, except_bind_error, isOk_error]
    | bool b =>
      rw [encodeStep_val_prim cfg delim (.bool b) depth (some k) nodes n rfl]
      cases h1 : enforceLimits depth cfg.limits nodes with
      | error e => simp [h1, except_bind_error, isOk_error]
      | ok m => simp [h1, hprimline (.bool b), except_bind_ok, except_bind_error, isOk_error]
    | num q =>
      rw [encodeStep_val_prim cfg delim (.num q) depth (some k) nodes n rfl]
      cases h1 : enforceLimits depth cfg.limits nodes with
      | error e => simp [h1, except_bind_error, isOk_error]
      | ok m => simp [h1, hprimline (.num q), except_bind_ok, except_bind_error, isOk_error]
    | str s =>
      rw [encodeStep_val_prim cfg delim (.str s) depth (some k) nodes n rfl]
      cases h1 : enforceLimits depth cfg.limits nodes with
      | error e => simp [h1, except_bind_error, isOk_error]
      | ok m => simp [h1, hprimline (.str s), except_bind_ok, except_bind_error, isOk_error]

/-- The object field loop fails when any entry's key is disallowed. -/
theorem encodeStep_floop_badKey (cfg : EncCfg) (delim : Char) :
    ∀ (entries : List (String × Value)) (fuel nextDepth nodes : Nat),
    (∃ p ∈ entries, cfg.limits.disallowedKeys.contains p.1 = true) →
    (encodeStep cfg delim fuel (.floop entries nextDepth) nodes).isOk = false := by
  intro entries
  induction entries with
  | nil => intro fuel nextDepth nodes hex; simp at hex
  | cons p rest ih =>
    intro fuel nextDepth nodes hex
    cases fuel with
    | zero => rfl
    | succ n =>
      obtain ⟨ck, cv⟩ := p
      rw [show encodeStep cfg delim (n + 1) (.floop ((ck, cv) :: rest) nextDepth) nodes
          = (do
              let m1 ← enforceLimits nextDepth cfg.limits nodes
              let r1 ← encodeStep cfg delim n (.val cv nextDepth (some ck)) m1
              let r2 ← encodeStep cfg delim n (.floop rest nextDepth) r1.2
              (.ok (r1.1 ++ r2.1, r2.2) : Except ToonErr (List String × Nat))) from rfl]
      cases h1 : enforceLimits nextDepth cfg.limits nodes with
      | error e => simp [h1, except_bind_error, isOk_error]
      | ok m1 =>
        simp only [h1, except_bind_ok]
        obtain ⟨q, hq, hcont⟩ := hex
        rcases List.mem_cons.mp hq with hqh | hqr
        · -- the offending key is the head entry
          have hbad : cfg.limits.disallowedKeys.contains ck = true := by
            rw [hqh] at hcont; exact hcont
          have := encodeStep_val_badKey cfg delim n ck cv nextDepth m1 hbad
          cases h4 : encodeStep cfg delim n (.val cv nextDepth (some ck)) m1 with
          | error e => simp [h4, except_bind_error, isOk_error]
          | ok r => rw [h4] at this; simp [isOk_ok] at this
        · -- the offending key is further down
          cases h4 : encodeStep cfg delim n (.val cv nextDepth (some ck)) m1 with
          | error e => simp [h4, except_bind_error, isOk_error]
          | ok r =>
            have := ih n nextDepth r.2 ⟨q, hqr, hcont⟩
            simp only [h4, except_bind_ok]
            cases h5 : encodeStep cfg delim n (.floop rest nextDepth) r.2 with
            | error e => simp [h5, except_bind_error, isOk_error]
            | ok r2 => rw [h5] at this; simp [isOk_ok] at this

/-- Encoding any object one of whose direct keys is in the active
disallowed set fails, with any options. -/
theorem jsonToToon_objBadKey (opts : JsonToToonOptions) (fields : List (String × Value))
    (hex : ∃ p ∈ fields, (applyLimits opts.toSecurityOptions).disallowedKeys.contains p.1 = true) :
    (jsonToToon opts (.obj fields)).isOk = false := by
  have hout : ∀ (cfg : EncCfg) (delim : Char) (fuel : Nat),
      cfg.limits = applyLimits opts.toSecurityOptions →
      (encodeStep cfg delim fuel (.val (.obj fields) 0 none) 0).isOk = false := by
    intro cfg delim fuel hcfg
    cases fuel with
    | zero => rfl
    | succ n =>
      rw [show encodeStep cfg delim (n + 1) (.val (.obj fields) 0 none) 0
          = (do
              let m1 ← enforceLimits 0 cfg.limits 0
              encodeStep cfg delim n (.objf none fields 0) m1) from rfl]
      cases h1 : enforceLimits 0 cfg.limits 0 with
      | error e => simp [h1, except_bind_error, isOk_error]
      | ok m1 =>
        simp only [h1, except_bind_ok]
        cases n with
        | zero => rfl
        | succ n2 =>
          rw [show encodeStep cfg delim (n2 + 1) (.objf none fields 0) m1
              = (do
                  let m2 ← enforceLimits 0 cfg.limits m1
                  let sortedEntries :=
                    if cfg.sortKeys then fields.mergeSort (fun a b => a.1 ≤ b.1) else fields
                  if 0 > 0 && sortedEntries.isEmpty then
                    (.ok ([], m2) : Except ToonErr (List String × Nat))
                  else encodeStep cfg delim n2 (.floop sortedEntries 0) m2) from rfl]
          cases h2 : enforceLimits 0 cfg.limits m1 with
          | error e => simp [h2, except_bind_error, isOk_error]
          | ok m2 =>
            simp only [h2, except_bind_ok, gt_iff_lt, Nat.lt_irrefl, decide_False,
              Bool.false_and, Bool.false_eq_true, if_false]
            by_cases hs : cfg.sortKeys
            · simp only [hs, if_true]
              refine encodeStep_floop_badKey cfg delim _ n2 0 m2 ?_
              obtain ⟨q, hq, hcont⟩ := hex
              exact ⟨q, ((fields.mergeSort_perm (fun a b => a.1 ≤ b.1)).mem_iff).mpr hq,
                by rw [hcfg]; exact hcont⟩
            · simp only [hs, if_false]
              obtain ⟨q, hq, hcont⟩ := hex
              exact encodeStep_floop_badKey cfg delim fields n2 0 m2
                ⟨q, hq, by rw [hcfg]; exact hcont⟩
  unfold jsonToToon
  dsimp only
  split
  · exact isOk_error _
  · have := hout
      ⟨applyLimits opts.toSecurityOptions,
        strRepeat " " (Option.getD opts.indent 2).toNat,
        opts.sortKeys.getD false⟩
      (opts.delimiter.getD DEFAULT_DELIMITER)
      (encFuel (.obj fields)) rfl
    unfold encodeValue
    cases h4 : encodeStep
        ⟨applyLimits opts.toSecurityOptions,
          strRepeat " " (Option.getD opts.indent 2).toNat,
          opts.sortKeys.getD false⟩
        (opts.delimiter.getD DEFAULT_DELIMITER)
        (encFuel (.obj fields)) (.val (.obj fields) 0 none) 0 with
    | error e => simp [h4, except_bind_error, isOk_error]
    | ok r => rw [h4] at this; simp [isOk_ok] at this

/-! ## C2: amended -/

/-- C2 (amended).  Disallowed-key rejection as the code implements it:
on encode, every *direct key of an encoded object* in the active
disallowed set fails the call (under any options) — but tabular emission
checks no field names (see the counterexample); on decode, every decoded
key fails unconditionally, and tabular field names fail whenever a data
row is processed, in both strict and lenient mode — but a tabular frame
that ends with zero rows never checks its field names. -/
theorem C2_disallowed_keys_amended :
    (∀ (opts : JsonToToonOptions) (fields : List (String × Value)),
      (∃ p ∈ fields,
        (applyLimits opts.toSecurityOptions).disallowedKeys.contains p.1 = true) →
      (jsonToToon opts (.obj fields)).isOk = false) ∧
    (∀ strict : Bool,
      toonToJson { strict := some strict } "__proto__: 1"
        = .error ⟨"Disallowed key \"__proto__\" to prevent prototype pollution.", some 1⟩) ∧
    (∀ strict : Bool,
      toonToJson { strict := some strict } "k[1]\x7b__proto__\x7d:\n  1"
        = .error ⟨"Disallowed key \"__proto__\" to prevent prototype pollution.", some 2⟩) := by
  refine ⟨jsonToToon_objBadKey, ?_, ?_⟩
  · intro strict; cases strict <;> rfl
  · intro strict; cases strict <;> rfl

/-- C2 witness: the encode-side universal applied to `{"__proto__": 1}`
with default options, and the decode-side parts at `strict`. -/
theorem C2_disallowed_keys_amended_witness :
    (jsonToToon {} (.obj [("__proto__", .num 1)])).isOk = false ∧
    toonToJson { strict := some true } "__proto__: 1"
      = .error ⟨"Disallowed key \"__proto__\" to prevent prototype pollution.", some 1⟩ :=
  ⟨C2_disallowed_keys_amended.1 {} [("__proto__", .num 1)]
      ⟨("__proto__", .num 1), by simp, by decide⟩,
    C2_disallowed_keys_amended.2.1 true⟩

/-- A text without newline characters splits into a single line. -/
theorem splitLines_no_newline (l : List Char) (h1 : '\n' ∉ l) (h2 : '\r' ∉ l) :
    splitLines l = [l] := by
  induction l with
  | nil => rfl
  | cons c rest ih =>
    have hc1 : c ≠ '\n' := fun h => h1 (h ▸ List.mem_cons_self c rest)
    have hc2 : c ≠ '\r' := fun h => h2 (h ▸ List.mem_cons_self c rest)
    have hr := ih (fun h => h1 (List.mem_cons_of_mem _ h))
      (fun h => h2 (List.mem_cons_of_mem _ h))
    rw [splitLines.eq_def]
    simp only [if_neg hc1, if_neg hc2]
    rw [hr]

/-! ## C5: amended -/

/-- C5 (amended).  Root scalar rule, restricted to non-null scalars: a
document whose single line is one scalar token with no unquoted colon
decodes to exactly that scalar, provided the scalar is not the literal
`null` — decoding `null` yields the empty object instead (see the
counterexample), because the decoder's root slot uses JS null as its
"nothing yet" sentinel; and a document with no non-blank line (here the
empty document) yields the empty object. -/
theorem C5_root_scalar_amended :
    (∀ (opts : ToonToJsonOptions) (line : String) (v : Value),
      '\n' ∉ line.data → '\r' ∉ line.data →
      countLeadingSpaces (stripTrailingWs line.data) (some 1) = .ok 0 →
      (jsTrim (stripTrailingWs line.data)).isEmpty = false →
      findUnquotedColon (stripTrailingWs line.data) = none →
      parsePrimitiveToken (String.mk (jsTrim (stripTrailingWs line.data)))
        DEFAULT_DELIMITER (some 1) (opts.strict.getD true) = .ok v →
      v ≠ .null →
      1 ≤ (applyLimits opts.toSecurityOptions).maxTotalNodes →
      toonToJson opts line = .ok v) ∧
    (∀ opts : ToonToJsonOptions, toonToJson opts "" = .ok (.obj [])) := by
  constructor
  · intro opts line v hn hr hcls hnb hcolon hparse hnull hbud
    unfold toonToJson
    dsimp only
    rw [splitLines_no_newline line.data hn hr]
    have hcore : processLineCore ⟨applyLimits opts.toSecurityOptions, opts.strict.getD true⟩
        initState (stripTrailingWs line.data) 0 1 = .ok ⟨[], v, false, 1⟩ := by
      unfold processLineCore initState
      rw [show popDeeper (opts.strict.getD true) 0 1 (List.length ([] : List Frame))
          ⟨[], Value.null, false, 0⟩ = .ok ⟨[], Value.null, false, 0⟩ from rfl]
      rw [except_bind_ok]
      dsimp only
      simp only [List.length_nil, Nat.zero_add]
      rw [show tabularLoop (applyLimits opts.toSecurityOptions) (opts.strict.getD true)
          (stripTrailingWs line.data) 0 1 1 ⟨[], Value.null, false, 0⟩
          = .ok (⟨[], Value.null, false, 0⟩, false) from rfl]
      rw [except_bind_ok]
      dsimp only
      rw [if_neg (by simp)]
      rw [hcolon]
      dsimp only
      rw [hparse, except_bind_ok]
      rw [show bumpNodes (applyLimits opts.toSecurityOptions) 0 1 (some 1)
          = .ok 1 from by unfold bumpNodes; rw [if_neg (by omega)]]
      rw [except_bind_ok]
      rfl
    have hpl : processLine ⟨applyLimits opts.toSecurityOptions, opts.strict.getD true⟩
        initState none line.data 1 = .ok (⟨[], v, false, 1⟩, some 2) := by
      unfold processLine
      dsimp only
      rw [if_neg (by simp [hnb])]
      rw [hcls, except_bind_ok]
      simp only [show (if (0 : Nat) = 0 then 2 else 0) = 2 from rfl, Nat.zero_div,
        List.drop_zero, ite_true]
      rw [if_neg (by simp)]
      rw [if_neg (by exact Nat.not_lt_zero _)]
      rw [hcore, except_bind_ok]
    rw [show processLinesLoop ⟨applyLimits opts.toSecurityOptions, opts.strict.getD true⟩
        [line.data] 1 initState none
        = (do
            let p ← processLine ⟨applyLimits opts.toSecurityOptions, opts.strict.getD true⟩
              initState none line.data 1
            processLinesLoop ⟨applyLimits opts.toSecurityOptions, opts.strict.getD true⟩
              [] 2 p.1 p.2) from rfl]
    rw [hpl, except_bind_ok]
    cases v with
    | null => exact absurd rfl hnull
    | bool b => rfl
    | num q => rfl
    | str s => rfl
    | arr l => rfl
    | obj f => rfl
  · intro opts
    rfl

/-- C5 witness: the amended root-scalar rule applied to the document
`hello`, plus the empty-document half. -/
theorem C5_root_scalar_amended_witness :
    toonToJson {} "hello" = .ok (.str "hello") ∧ toonToJson {} "" = .ok (.obj []) :=
  ⟨C5_root_scalar_amended.1 {} "hello" (.str "hello")
      (by decide) (by decide) rfl rfl rfl rfl (fun h => Value.noConfusion h) (by decide),
   C5_root_scalar_amended.2 {}⟩



/-! ## Indent-step tracking (for C4) -/

theorem countLeadingSpacesAux_leading (lineNo : Option Nat) :
    ∀ (l : List Char) (acc n : Nat),
    countLeadingSpacesAux lineNo l acc = .ok n → n = acc + leadingSpaces l := by
  intro l
  induction l with
  | nil =>
    intro acc n h
    simp only [countLeadingSpacesAux, Except.ok.injEq] at h
    simp [leadingSpaces, ← h]
  | cons c rest ih =>
    intro acc n h
    unfold countLeadingSpacesAux at h
    by_cases hc : c = ' '
    · rw [if_pos hc] at h
      have := ih (acc + 1) n h
      subst hc
      simp only [leadingSpaces, List.takeWhile] at this ⊢
      simp only [decide_True, List.length_cons] at this ⊢
      omega
    · rw [if_neg hc] at h
      by_cases ht : c = '\t'
      · rw [if_pos ht] at h; exact Except.noConfusion h
      · rw [if_neg ht] at h
        simp only [Except.ok.injEq] at h
        simp [leadingSpaces, List.takeWhile, hc, ← h]

theorem countLeadingSpaces_leading (l : List Char) (lineNo : Option Nat) (n : Nat)
    (h : countLeadingSpaces l lineNo = .ok n) : n = leadingSpaces l := by
  have := countLeadingSpacesAux_leading lineNo l 0 n h
  omega

/-- What one line does to the inferred indent step, and the indentation
check it passes. -/
theorem processLine_step (cfg : DecCfg) (st : DecState) (indentStep : Option Nat)
    (rawLine : List Char) (lineNo : Nat) (out : DecState × Option Nat)
    (h : processLine cfg st indentStep rawLine lineNo = .ok out) :
    (isBlankLine rawLine = true → out.2 = indentStep) ∧
    (isBlankLine rawLine = false →
      out.2 = some (indentStep.getD (stepOfLine rawLine)) ∧
      leadingSpaces (stripTrailingWs rawLine) % (indentStep.getD (stepOfLine rawLine)) = 0) := by
  unfold processLine at h
  by_cases hb : (jsTrim (stripTrailingWs rawLine)).isEmpty = true
  · rw [if_pos hb] at h
    simp only [Except.ok.injEq] at h
    subst h
    constructor
    · intro _; rfl
    · intro hfalse; rw [isBlankLine] at hfalse; rw [hfalse] at hb; exact Bool.noConfusion hb
  · rw [if_neg hb] at h
    simp only [bind, Except.bind] at h
    constructor
    · intro htrue; rw [isBlankLine] at htrue; exact absurd htrue hb
    · intro _
      split at h
      · exact Except.noConfusion h
      · rename_i n hcl
        have hn := countLeadingSpaces_leading _ _ _ hcl
        subst hn
        generalize hsv : (match indentStep with
          | some s => s
          | none => if leadingSpaces (stripTrailingWs rawLine) = 0 then 2
                    else leadingSpaces (stripTrailingWs rawLine)) = stepv at h
        have hgd : indentStep.getD (stepOfLine rawLine) = stepv := by
          rw [← hsv]; cases indentStep <;> rfl
        rw [hgd]
        split at h
        · exact Except.noConfusion h
        · rename_i hmod
          split at h
          · exact Except.noConfusion h
          · split at h
            · exact Except.noConfusion h
            · rename_i st2 hcore
              simp only [Except.ok.injEq] at h
              subst h
              exact ⟨rfl, by omega⟩

/-- The line loop fixes the step from the first non-blank line and has
checked every non-blank line's indent against it. -/
theorem processLinesLoop_step (cfg : DecCfg) :
    ∀ (lines : List (List Char)) (k : Nat) (st : DecState) (indentStep : Option Nat)
      (out : DecState × Option Nat),
    processLinesLoop cfg lines k st indentStep = .ok out →
    (out.2 = match indentStep with
      | some s => some s
      | none => stepFromLines lines) ∧
    (∀ l ∈ lines, isBlankLine l = false →
      ∃ s, out.2 = some s ∧ leadingSpaces (stripTrailingWs l) % s = 0) := by
  intro lines
  induction lines with
  | nil =>
    intro k st indentStep out h
    simp only [processLinesLoop, Except.ok.injEq] at h
    subst h
    refine ⟨?_, by simp⟩
    cases indentStep <;> rfl
  | cons l rest ih =>
    intro k st indentStep out h
    unfold processLinesLoop at h
    simp only [bind, Except.bind] at h
    split at h
    · exact Except.noConfusion h
    · rename_i p hpl
      have hstep := processLine_step cfg st indentStep l k p hpl
      have hrest := ih (k + 1) p.1 p.2 out h
      cases hb : isBlankLine l with
      | true =>
        have hp2 := hstep.1 hb
        constructor
        · rw [hrest.1, hp2]
          cases indentStep with
          | some s => rfl
          | none => simp [stepFromLines, hb]
        · intro l2 hl2 hnb2
          rcases List.mem_cons.mp hl2 with hl2h | hl2r
          · rw [hl2h] at hnb2; rw [hnb2] at hb; exact Bool.noConfusion hb
          · exact hrest.2 l2 hl2r hnb2
      | false =>
        have hp2 := hstep.2 hb
        constructor
        · rw [hrest.1, hp2.1]
          cases indentStep with
          | some s => rfl
          | none => simp [stepFromLines, hb, Option.getD]
        · intro l2 hl2 hnb2
          rcases List.mem_cons.mp hl2 with hl2h | hl2r
          · subst hl2h
            refine ⟨indentStep.getD (stepOfLine l2), ?_, hp2.2⟩
            rw [hrest.1, hp2.1]
          · exact hrest.2 l2 hl2r hnb2

/-- C4 amended claim: the decoder fixes the document-wide indent step from
the first NON-BLANK line (2 when that line's leading-space count is zero,
otherwise that count — not the first line with non-zero indent), and on
every successful decode every non-blank line's indent is an exact multiple
of that step. -/
theorem C4_indent_step_amended (opts : ToonToJsonOptions) (text : String) (v : Value)
    (h : toonToJson opts text = .ok v) :
    ∀ l ∈ nonBlankLines text,
      ∃ s, codeIndentStep text = some s ∧ leadingSpaces l % s = 0 := by
  intro l hl
  unfold toonToJson at h
  simp only [bind, Except.bind] at h
  split at h
  · exact Except.noConfusion h
  · rename_i p hloop
    have hmain := processLinesLoop_step _ _ _ _ _ _ hloop
    have h1 : p.2 = stepFromLines (splitLines text.data) := hmain.1
    simp only [nonBlankLines, List.mem_filter, List.mem_map] at hl
    obtain ⟨⟨raw, hraw, hstrip⟩, hne⟩ := hl
    have hnb : isBlankLine raw = false := by
      rw [isBlankLine, hstrip]
      simpa using hne
    obtain ⟨s, hs1, hs2⟩ := hmain.2 raw hraw hnb
    refine ⟨s, ?_, ?_⟩
    · show stepFromLines (splitLines text.data) = some s
      rw [← h1]
      exact hs1
    · rw [← hstrip]
      exact hs2

/-- C4 witness: the amended indent rule applied to a concrete two-line
document with step 2. -/
theorem C4_indent_step_amended_witness :
    toonToJson {} "a:\n  b: 1" = .ok (.obj [("a", .obj [("b", .num 1)])]) ∧
    ∀ l ∈ nonBlankLines "a:\n  b: 1",
      ∃ s, codeIndentStep "a:\n  b: 1" = some s ∧ leadingSpaces l % s = 0 :=
  ⟨rfl, C4_indent_step_amended {} "a:\n  b: 1" (.obj [("a", .obj [("b", .num 1)])]) rfl⟩

/-! ## C7: inline-array length enforcement -/

/-- C7: when a `key[n]:` header carries inline values, strict decoding
fails with the exact length-mismatch error whenever the parsed value
count differs from the declared length; with `strict: false` the same
document is accepted with the values as-is. -/
theorem C7_inline_length_enforcement :
    (∀ (limits : Limits) (st : DecState) (indentLevel : Nat)
       (keyToken valueToken : String) (lineNo : Nat)
       (rawKey headerTok k : String) (len : Nat) (delim : Char)
       (toks : List String) (values : List Value),
       splitKeyHeader keyToken = (rawKey, some headerTok) →
       rawKey ≠ "" →
       decodeKey rawKey DEFAULT_DELIMITER (some lineNo) = .ok k →
       validateKeySafety k limits (some lineNo) = .ok () →
       parseArrayHeader true headerTok lineNo = .ok (len, delim, none) →
       len ≤ limits.maxArrayLength →
       valueToken ≠ "" →
       splitDelimited valueToken.data delim (some lineNo) = .ok toks →
       toks.mapM (fun t => parsePrimitiveToken t delim (some lineNo) true) = .ok values →
       values.length ≠ len →
       processKeyValueLine limits true st indentLevel keyToken valueToken lineNo
         = .error ⟨"Inline array length mismatch: expected " ++ toString len ++
             ", got " ++ toString values.length ++ ".", some lineNo⟩) ∧
    toonToJson {} "nums[2]: 1"
      = .error ⟨"Inline array length mismatch: expected 2, got 1.", some 1⟩ ∧
    toonToJson { strict := some false } "nums[2]: 1"
      = .ok (.obj [("nums", .arr [.num 1])]) := by
  refine ⟨?_, rfl, rfl⟩
  intro limits st indentLevel keyToken valueToken lineNo rawKey headerTok k len delim
    toks values hsplit hrk hk hsafe hhdr hlen hvt hsd hmap hne
  unfold processKeyValueLine
  rw [hsplit]
  dsimp only
  rw [if_neg hrk]
  simp only [bind, Except.bind, pure, Except.pure]
  rw [hk]
  dsimp only
  rw [hsafe]
  dsimp only
  rw [hhdr]
  dsimp only
  rw [if_neg (show ¬ len > limits.maxArrayLength by omega)]
  rw [if_neg hvt]
  rw [hsd]
  dsimp only
  rw [hmap]
  dsimp only
  rw [if_pos (by simp [hne])]

/-- C7 witness: the strict length-mismatch branch applied to the line
`nums[2]: 1` exactly as the document-level halves exercise it. -/
theorem C7_inline_length_enforcement_witness :
    processKeyValueLine DEFAULT_LIMITS true initState 0 "nums[2]" "1" 1
      = .error ⟨"Inline array length mismatch: expected 2, got 1.", some 1⟩ :=
  C7_inline_length_enforcement.1 DEFAULT_LIMITS initState 0 "nums[2]" "1" 1
    "nums" "[2]" "nums" 2 ',' ["1"] [.num 1]
    rfl (by decide) rfl rfl rfl (by decide) (by decide) rfl rfl (by decide)

/-! ## C8: leading-zero rule -/

theorem lzt_reduce (c : Char) (r : List Char) :
    leadingZeroTest ('0' :: c :: r) = isDigitChar c ∧
    leadingZeroTest ('-' :: '0' :: c :: r) = isDigitChar c :=
  ⟨rfl, rfl⟩

/-- C8: an unquoted trimmed token with a `-?0<digit>` prefix is rejected by
the primitive parser with the exact leading-zero error (in both modes); the
encoder quotes any string matching `^0\d+$`; and the concrete pair
`value: 007` / `encode {code: "007"}` behaves as documented, round-tripping
the string `"007"`. -/
theorem C8_leading_zero_rule :
    (∀ (token : String) (delim : Char) (lineNo : Option Nat) (strict : Bool)
       (c : Char) (r : List Char),
       (token.data = '0' :: c :: r ∨ token.data = '-' :: '0' :: c :: r) →
       isDigitChar c = true →
       jsTrimStr token = token →
       leadingZeroTest token.data = true ∧
       parsePrimitiveToken token delim lineNo strict
         = .error ⟨"Numbers with leading zeros must be quoted.", lineNo⟩) ∧
    (∀ (value : String) (a d : Char),
       leadingZeroRe value.data = true →
       encodeString value a d = "\"" ++ escapeString value ++ "\"") ∧
    toonToJson {} "value: 007"
      = .error ⟨"Numbers with leading zeros must be quoted.", some 1⟩ ∧
    jsonToToon {} (.obj [("code", .str "007")]) = .ok "code: \"007\"" ∧
    toonToJson {} "code: \"007\"" = .ok (.obj [("code", .str "007")]) := by
  refine ⟨?_, ?_, rfl, rfl, rfl⟩
  · intro token delim lineNo strict c r hshape hdig htrim
    have hlz : leadingZeroTest token.data = true := by
      rcases hshape with h | h <;> rw [h]
      · exact (lzt_reduce c r).1.trans hdig
      · exact (lzt_reduce c r).2.trans hdig
    refine ⟨hlz, ?_⟩
    have hne : token ≠ "" := by
      intro h
      rw [h] at hshape
      rcases hshape with h2 | h2 <;> exact List.noConfusion h2
    have hq : strStartsWithChar token '"' = false := by
      unfold strStartsWithChar
      rcases hshape with h | h <;> rw [h] <;> rfl
    unfold parsePrimitiveToken
    rw [if_neg hne]
    dsimp only
    rw [htrim]
    rw [if_neg (show ¬((decide ¬(token = token) && strict) = true) by simp)]
    rw [if_neg (show ¬(strStartsWithChar token '"' = true) by rw [hq]; simp)]
    rw [if_neg (show token ≠ "true" by
      intro h; rw [h] at hshape; rcases hshape with h2 | h2 <;> simp at h2)]
    rw [if_neg (show token ≠ "false" by
      intro h; rw [h] at hshape; rcases hshape with h2 | h2 <;> simp at h2)]
    rw [if_neg (show token ≠ "null" by
      intro h; rw [h] at hshape; rcases hshape with h2 | h2 <;> simp at h2)]
    rw [if_pos hlz]
  · intro value a d hlz
    have hq : needsQuote value a d = true := by
      unfold needsQuote
      rw [hlz]
      simp
    unfold encodeString
    rw [hq]
    rfl

/-- C8 witness: both universal halves applied to the token / string `007`. -/
theorem C8_leading_zero_rule_witness :
    parsePrimitiveToken "007" ',' (some 1) true
      = .error ⟨"Numbers with leading zeros must be quoted.", some 1⟩ ∧
    encodeString "007" ',' ',' = "\"" ++ escapeString "007" ++ "\"" :=
  ⟨(C8_leading_zero_rule.1 "007" ',' (some 1) true '0' ['7']
      (Or.inl rfl) (by decide) rfl).2,
   C8_leading_zero_rule.2.1 "007" ',' ',' (by decide)⟩

/-! ## C9: lenient tabular padding -/

theorem lookupField_setKey_same (obj : List (String × Value)) (f : String) (v : Value) :
    lookupField (setKey obj f v) f = some v := by
  induction obj with
  | nil => simp [setKey, lookupField]
  | cons p rest ih =>
    obtain ⟨k, w⟩ := p
    by_cases h : k = f
    · simp [setKey, h, lookupField]
    · simp [setKey, h, lookupField, ih]

theorem lookupField_setKey_other (obj : List (String × Value)) (f g : String) (v : Value)
    (hne : g ≠ f) : lookupField (setKey obj f v) g = lookupField obj g := by
  induction obj with
  | nil =>
    simp only [setKey, lookupField]
    rw [if_neg (fun h => hne h.symm)]
  | cons p rest ih =>
    obtain ⟨k, w⟩ := p
    by_cases h : k = f
    · subst h
      simp only [setKey, if_pos rfl, lookupField]
      rw [if_neg (fun h2 => hne h2.symm), if_neg (fun h2 => hne h2.symm)]
    · simp only [setKey, if_neg h, lookupField]
      by_cases h2 : k = g
      · rw [if_pos h2, if_pos h2]
      · rw [if_neg h2, if_neg h2, ih]

theorem setKey_keys_new (obj : List (String × Value)) (f : String) (v : Value)
    (h : f ∉ obj.map Prod.fst) :
    (setKey obj f v).map Prod.fst = obj.map Prod.fst ++ [f] := by
  induction obj with
  | nil => rfl
  | cons p rest ih =>
    obtain ⟨k, w⟩ := p
    simp only [List.map_cons, List.mem_cons] at h
    push_neg at h
    simp only [setKey]
    rw [if_neg (fun hh => h.1 hh.symm)]
    simp only [List.map_cons, List.cons_append, List.cons.injEq, true_and]
    exact ih h.2

/-- What a lenient (or strict) tabular row build produces: the keys are
the accumulated object's keys followed by the declared fields, untouched
keys keep their bindings, and every field whose cell is missing is bound
to the empty string. -/
theorem buildTabularRow_general (limits : Limits) (strict : Bool) (delim : Char)
    (lineNo : Nat) :
    ∀ (fields cells : List String) (obj : List (String × Value)) (nodes : Nat)
      (out : List (String × Value) × Nat),
    buildTabularRow limits strict delim lineNo fields cells obj nodes = .ok out →
    (∀ f ∈ fields, f ∉ obj.map Prod.fst) → fields.Nodup →
    out.1.map Prod.fst = obj.map Prod.fst ++ fields ∧
    (∀ g, g ∉ fields → lookupField out.1 g = lookupField obj g) ∧
    (∀ i (hi : i < fields.length), cells.length ≤ i →
      lookupField out.1 (fields.get ⟨i, hi⟩) = some (.str "")) := by
  intro fields
  induction fields with
  | nil =>
    intro cells obj nodes out h hdisj hnd
    simp only [buildTabularRow, Except.ok.injEq] at h
    subst h
    exact ⟨by simp, fun g _ => rfl, fun i hi => absurd hi (by simp)⟩
  | cons f fs ih =>
    intro cells obj nodes out h hdisj hnd
    unfold buildTabularRow at h
    simp only [bind, Except.bind] at h
    split at h
    · exact Except.noConfusion h
    · split at h
      · exact Except.noConfusion h
      · rename_i v hpv
        split at h
        · exact Except.noConfusion h
        · rename_i nodes2 hbn
          have hfobj : f ∉ obj.map Prod.fst := hdisj f (List.mem_cons_self f fs)
          have hffs : f ∉ fs := (List.nodup_cons.mp hnd).1
          have hdisj' : ∀ g ∈ fs, g ∉ (setKey obj f v).map Prod.fst := by
            intro g hg
            rw [setKey_keys_new obj f v hfobj]
            simp only [List.mem_append, List.mem_singleton]
            push_neg
            exact ⟨hdisj g (List.mem_cons_of_mem f hg), fun he => hffs (he ▸ hg)⟩
          have IH := ih cells.tail (setKey obj f v) nodes2 out h hdisj' (List.nodup_cons.mp hnd).2
          refine ⟨?_, ?_, ?_⟩
          · rw [IH.1, setKey_keys_new obj f v hfobj]
            simp
          · intro g hg
            rw [IH.2.1 g (fun hh => hg (List.mem_cons_of_mem f hh)),
                lookupField_setKey_other obj f g v (fun hh => hg (hh ▸ List.mem_cons_self f fs))]
          · intro i hi hcl
            match i with
            | 0 =>
              have hc : cells = [] := List.length_eq_zero.mp (Nat.le_zero.mp hcl)
              subst hc
              have hok : parsePrimitiveToken ((List.head? ([] : List String)).getD "")
                  delim (some lineNo) strict = .ok (.str "") := rfl
              have hv : Value.str "" = v := Except.ok.inj (hok.symm.trans hpv)
              show lookupField out.1 f = some (.str "")
              rw [IH.2.1 f hffs, ← hv, lookupField_setKey_same]
            | i + 1 =>
              have hstep := IH.2.2 i (by simpa using hi) (by simp at hcl ⊢; omega)
              simpa using hstep

/-- C9: with `strict: false` a tabular data row with fewer cells than the
declared field count is accepted, every missing cell is decoded as the
empty string, and the produced row object binds exactly the declared
fields; concretely, the one-cell row `1` under header `rows[1]{a,b,c}:`
decodes to `{a: 1, b: "", c: ""}`. -/
theorem C9_lenient_tabular_padding :
    (∀ (limits : Limits) (delim : Char) (lineNo : Nat) (fields cells : List String)
       (nodes : Nat) (out : List (String × Value) × Nat),
       buildTabularRow limits false delim lineNo fields cells [] nodes = .ok out →
       fields.Nodup →
       out.1.map Prod.fst = fields ∧
       (∀ i (hi : i < fields.length), cells.length ≤ i →
         lookupField out.1 (fields.get ⟨i, hi⟩) = some (.str ""))) ∧
    toonToJson { strict := some false } "rows[1]\x7ba,b,c\x7d:\n  1"
      = .ok (.obj [("rows", .arr [.obj
          [("a", .num 1), ("b", .str ""), ("c", .str "")]])]) := by
  refine ⟨?_, rfl⟩
  intro limits delim lineNo fields cells nodes out h hnd
  have hg := buildTabularRow_general limits false delim lineNo fields cells [] nodes out
    h (by simp) hnd
  exact ⟨by simpa using hg.1, hg.2.2⟩

/-- C9 witness: the padding rule applied to the concrete row build for
cells `["1"]` under fields `a,b,c`. -/
theorem C9_lenient_tabular_padding_witness :
    (([("a", Value.num 1), ("b", Value.str ""), ("c", Value.str "")],
        3) : List (String × Value) × Nat).1.map Prod.fst = ["a", "b", "c"] ∧
    lookupField [("a", Value.num 1), ("b", Value.str ""), ("c", Value.str "")]
      (["a", "b", "c"].get ⟨2, by decide⟩) = some (.str "") :=
  have h := C9_lenient_tabular_padding.1 DEFAULT_LIMITS ',' 2 ["a", "b", "c"] ["1"] 0
    ([("a", Value.num 1), ("b", Value.str ""), ("c", Value.str "")], 3) rfl (by decide)
  ⟨h.1, h.2 2 (by decide) (by decide)⟩

/-! ## C10: no delimiter marker in emitted array headers -/

theorem takeWhile_all_append (p : Char → Bool) (l1 l2 : List Char) (d : Char)
    (h1 : ∀ c ∈ l1, p c = true) (hd : p d = false) :
    (l1 ++ d :: l2).takeWhile p = l1 ∧ (l1 ++ d :: l2).dropWhile p = d :: l2 := by
  induction l1 with
  | nil => simp [List.takeWhile, List.dropWhile, hd]
  | cons c r ih =>
    have hc : p c = true := h1 c (List.mem_cons_self c r)
    have hr := ih (fun x hx => h1 x (List.mem_cons_of_mem c hx))
    simp [List.takeWhile, List.dropWhile, hc, hr.1, hr.2]

theorem matchHeaderShape_count (digits : List Char)
    (hne : digits ≠ []) (hall : ∀ c ∈ digits, isDigitChar c = true) :
    matchHeaderShape ('[' :: (digits ++ [']'])) = some (digits, none, none) := by
  have htd := takeWhile_all_append isDigitChar digits [] ']' hall (by decide)
  have hie : digits.isEmpty = false := by
    cases digits with
    | nil => exact absurd rfl hne
    | cons a b => rfl
  unfold matchHeaderShape
  split
  · rename_i rest heq
    injection heq with h1 h2
    subst h2
    rw [htd.1, htd.2, if_neg (by simp [hie])]
    rfl
  · rename_i hcon
    exact absurd rfl (hcon (digits ++ [']']))

theorem parseArrayHeader_comma (strict : Bool) (digits : List Char) (lineNo : Nat)
    (hne : digits ≠ []) (hall : ∀ c ∈ digits, isDigitChar c = true)
    (hlt : natOfDigits digits < natFloatOverflowBound) :
    parseArrayHeader strict (String.mk ('[' :: (digits ++ [']']))) lineNo
      = .ok (natOfDigits digits, ',', none) := by
  unfold parseArrayHeader
  rw [show (String.mk ('[' :: (digits ++ [']']))).data = '[' :: (digits ++ [']'])
      from rfl]
  rw [matchHeaderShape_count digits hne hall]
  dsimp only
  rw [if_neg (by omega)]
  rfl

theorem header_shape_colon (A s1 s2 : String) :
    A ++ "]:" ++ s1 ++ s2 = A ++ "]" ++ ":" ++ (s1 ++ s2) := by
  rw [show ("]:" : String) = "]" ++ ":" from rfl]
  simp [String.append_assoc]

theorem header_shape_colon_nil (A : String) :
    A ++ "]:" = A ++ "]" ++ ":" ++ "" := by
  rw [show ("]:" : String) = "]" ++ ":" from rfl]
  simp [String.append_assoc]

theorem header_shape_brace (A s1 : String) :
    A ++ "]\x7b" ++ s1 ++ "\x7d:" = A ++ "]" ++ "\x7b" ++ (s1 ++ "\x7d:") := by
  rw [show ("]\x7b" : String) = "]" ++ "\x7b" from rfl]
  simp [String.append_assoc]

/-- Every successful `encodeArray` call emits a first line whose bracket
group is exactly `[<decimal element count>]`, immediately followed by `:`
(inline or expanded list) or `{` (tabular) — never a delimiter marker. -/
theorem encodeStep_arrc_header (cfg : EncCfg) (delim : Char) (fuel : Nat)
    (key : Option String) (arr : List Value) (depth nodes : Nat)
    (out : List String × Nat)
    (h : encodeStep cfg delim fuel (.arrc key arr depth) nodes = .ok out) :
    ∃ (hd : String) (ls : List String) (c t : String),
      out.1 = hd :: ls ∧ (c = ":" ∨ c = "\x7b") ∧
      hd = strRepeat cfg.indentUnit depth ++
        (match key with | none => "" | some k => encodeKey k delim) ++
        "[" ++ toString arr.length ++ "]" ++ c ++ t := by
  match fuel with
  | 0 => exact Except.noConfusion h
  | fuel + 1 =>
    unfold encodeStep at h
    dsimp only at h
    simp only [bind, Except.bind, pure, Except.pure] at h
    split at h
    · exact Except.noConfusion h
    · split at h
      · -- key = some k
        split at h
        · exact Except.noConfusion h
        · split at h
          · exact Except.noConfusion h
          · split at h
            · split at h
              · exact Except.noConfusion h
              · simp only [Except.ok.injEq] at h
                subst h
                exact ⟨_, [], ":", _, rfl, Or.inl rfl, header_shape_colon _ _ _⟩
            · split at h
              · split at h
                · exact Except.noConfusion h
                · simp only [Except.ok.injEq] at h
                  subst h
                  exact ⟨_, _, "\x7b", _, rfl, Or.inr rfl, header_shape_brace _ _⟩
              · split at h
                · exact Except.noConfusion h
                · simp only [Except.ok.injEq] at h
                  subst h
                  exact ⟨_, _, ":", _, rfl, Or.inl rfl, header_shape_colon_nil _⟩
      · -- key = none
        split at h
        · exact Except.noConfusion h
        · split at h
          · split at h
            · exact Except.noConfusion h
            · simp only [Except.ok.injEq] at h
              subst h
              exact ⟨_, [], ":", _, rfl, Or.inl rfl, header_shape_colon _ _ _⟩
          · split at h
            · split at h
              · exact Except.noConfusion h
              · simp only [Except.ok.injEq] at h
                subst h
                exact ⟨_, _, "\x7b", _, rfl, Or.inr rfl, header_shape_brace _ _⟩
            · split at h
              · exact Except.noConfusion h
              · simp only [Except.ok.injEq] at h
                subst h
                exact ⟨_, _, ":", _, rfl, Or.inl rfl, header_shape_colon_nil _⟩

/-- C10: the encoder's array headers carry exactly the decimal element
count between the brackets (no delimiter marker), a bracket group of that
shape parses with the default comma delimiter regardless of the encode-time
delimiter, and consequently `nums[2]: 1|2` (encoded with delimiter `|`)
strictly fails to decode and leniently decodes to the single string
`"1|2"`. -/
theorem C10_no_delimiter_marker :
    (∀ (cfg : EncCfg) (delim : Char) (fuel : Nat) (key : Option String)
       (arr : List Value) (depth nodes : Nat) (out : List String × Nat),
       encodeStep cfg delim fuel (.arrc key arr depth) nodes = .ok out →
       ∃ (hd : String) (ls : List String) (c t : String),
         out.1 = hd :: ls ∧ (c = ":" ∨ c = "\x7b") ∧
         hd = strRepeat cfg.indentUnit depth ++
           (match key with | none => "" | some k => encodeKey k delim) ++
           "[" ++ toString arr.length ++ "]" ++ c ++ t) ∧
    (∀ (strict : Bool) (digits : List Char) (lineNo : Nat),
       digits ≠ [] → (∀ ch ∈ digits, isDigitChar ch = true) →
       natOfDigits digits < natFloatOverflowBound →
       parseArrayHeader strict (String.mk ('[' :: (digits ++ [']']))) lineNo
         = .ok (natOfDigits digits, ',', none)) ∧
    jsonToToon { delimiter := some '|' } (.obj [("nums", .arr [.num 1, .num 2])])
      = .ok "nums[2]: 1|2" ∧
    toonToJson {} "nums[2]: 1|2"
      = .error ⟨"Inline array length mismatch: expected 2, got 1.", some 1⟩ ∧
    toonToJson { strict := some false } "nums[2]: 1|2"
      = .ok (.obj [("nums", .arr [.str "1|2"])]) := by
  refine ⟨?_, parseArrayHeader_comma, rfl, rfl, rfl⟩
  intro cfg delim fuel key arr depth nodes out h
  obtain ⟨hd, ls, c, t, h1, h2, h3⟩ :=
    encodeStep_arrc_header cfg delim fuel key arr depth nodes out h
  exact ⟨hd, ls, c, t, h1, h2, by cases key <;> exact h3⟩

/-- C10 witness: both universal halves applied to the concrete header
produced for `nums: [1, 2]` with delimiter `|`. -/
theorem C10_no_delimiter_marker_witness :
    (∃ (hd : String) (ls : List String) (c t : String),
       ((["nums[2]: 1|2"], 3) : List String × Nat).1 = hd :: ls ∧
       (c = ":" ∨ c = "\x7b") ∧
       hd = strRepeat "  " 0 ++
         (match (some "nums" : Option String) with
          | none => "" | some k => encodeKey k '|') ++
         "[" ++ toString ([Value.num 1, Value.num 2].length) ++ "]" ++ c ++ t) ∧
    parseArrayHeader true (String.mk ('[' :: (['2'] ++ [']']))) 1
      = .ok (natOfDigits ['2'], ',', none) :=
  ⟨C10_no_delimiter_marker.1 ⟨DEFAULT_LIMITS, "  ", false⟩ '|' 10 (some "nums")
      [.num 1, .num 2] 0 0 (["nums[2]: 1|2"], 3) rfl,
   C10_no_delimiter_marker.2.1 true ['2'] 1 (by decide) (by decide) (by decide)⟩

/-! ## C6: tabular emission -/

theorem lookupField_mem_isSome (fs : List (String × Value)) (k : String)
    (h : k ∈ fs.map Prod.fst) : ∃ v, lookupField fs k = some v := by
  induction fs with
  | nil => simp at h
  | cons p rest ih =>
    obtain ⟨k', v'⟩ := p
    by_cases hk : k' = k
    · exact ⟨v', by simp [lookupField, hk]⟩
    · simp only [List.map_cons, List.mem_cons] at h
      rcases h with h | h
    
      · exact absurd h.symm hk
      · obtain ⟨v, hv⟩ := ih h
        exact ⟨v, by simp [lookupField, hk, hv]⟩

theorem lookupField_some_mem (fs : List (String × Value)) (k : String) (v : Value)
    (h : lookupField fs k = some v) : (k, v) ∈ fs := by
  induction fs with
  | nil => exact Option.noConfusion h
  | cons p rest ih =>
    obtain ⟨k', v'⟩ := p
    unfold lookupField at h
    by_cases hk : k' = k
    · rw [if_pos hk] at h
      subst hk
      simp only [Option.some.injEq] at h
      subst h
      exact List.mem_cons_self _ _
    · rw [if_neg hk] at h
      exact List.mem_cons_of_mem _ (ih h)

theorem length_eq_of_nodup_mem_iff (l1 l2 : List String)
    (h1 : l1.Nodup) (h2 : l2.Nodup) (h : ∀ a, a ∈ l1 ↔ a ∈ l2) :
    l1.length = l2.length := by
  rw [← List.toFinset_card_of_nodup h1, ← List.toFinset_card_of_nodup h2]
  congr 1
  ext a
  simp [h a]

/-- Arrays of non-empty plain objects sharing the first element's key set
(by presence), with primitive field values, are detected as tabular with
the first element's field order. -/
theorem detectTabular_of_uniform (firstFields : List (String × Value)) (rest : List Value)
    (huni : ∀ item ∈ (Value.obj firstFields :: rest), ∃ fs,
      item = Value.obj fs ∧ fs ≠ [] ∧ (fs.map Prod.fst).Nodup ∧
      (∀ k ∈ fs.map Prod.fst, k ∈ firstFields.map Prod.fst) ∧
      (∀ k ∈ firstFields.map Prod.fst, k ∈ fs.map Prod.fst) ∧
      fs.all (fun p => isPrimitive p.2) = true) :
    detectTabular (Value.obj firstFields :: rest)
      = some (firstFields.map Prod.fst, (Value.obj firstFields :: rest).map rowOf) := by
  obtain ⟨fs0, hfs0, hne0, hnd0, hsub0, hsup0, hprim0⟩ :=
    huni (Value.obj firstFields) (List.mem_cons_self _ _)
  have e0 : firstFields = fs0 := Value.obj.inj hfs0
  subst e0
  have hallp : (Value.obj firstFields :: rest).all isPlainObject = true := by
    rw [List.all_eq_true]
    intro item hitem
    obtain ⟨fs, hfs, -, -, -, -, -⟩ := huni item hitem
    rw [hfs]
    rfl
  have hfne2 : (firstFields.map Prod.fst).isEmpty = false := by
    cases firstFields with
    | nil => exact absurd rfl hne0
    | cons a b => rfl
  unfold detectTabular
  dsimp only
  split
  · rename_i hcon
    rw [hallp] at hcon
    exact absurd hcon (by decide)
  · rename_i hnp
    split
    · rename_i hcon
      rw [hfne2] at hcon
      exact Bool.noConfusion hcon
    · rename_i hfne3
      split
      · rfl
      · rename_i hcon
        exfalso
        apply hcon
        rw [List.all_eq_true]
        intro item hitem
        obtain ⟨fs, hfs, hne, hnd, hsub, hsup, hprim⟩ := huni item hitem
        subst hfs
        dsimp only
        have hlen : fs.length = (firstFields.map Prod.fst).length := by
          have hmaps : (fs.map Prod.fst).length = (firstFields.map Prod.fst).length :=
            length_eq_of_nodup_mem_iff _ _ hnd hnd0
              (fun a => ⟨fun ha => hsub a ha, fun ha => hsup a ha⟩)
          simpa using hmaps
        have hfall : (firstFields.map Prod.fst).all (fun f =>
            match lookupField fs f with
            | some v => isPrimitive v
            | none => false) = true := by
          rw [List.all_eq_true]
          intro f hf
          obtain ⟨v, hv⟩ := lookupField_mem_isSome fs f (hsup f hf)
          rw [hv]
          exact List.all_eq_true.mp hprim (f, v) (lookupField_some_mem fs f v hv)
        rw [Bool.and_eq_true]
        exact ⟨by simp [hlen], hfall⟩

/-- C6: an array of non-empty plain objects that all share the first
element's key set (checked by presence, not order) with primitive field
values is emitted tabularly: a `key[n]{f1,f2,...}:` header in the first
element's insertion order followed by one row per element at depth+1,
each row the delimiter-joined encoded field values in that order. -/
theorem C6_tabular_emission :
    ∀ (cfg : EncCfg) (delim : Char) (fuel : Nat) (key : Option String)
      (firstFields : List (String × Value)) (rest : List Value) (depth nodes : Nat)
      (out : List String × Nat),
    (∀ item ∈ (Value.obj firstFields :: rest), ∃ fs,
        item = Value.obj fs ∧ fs ≠ [] ∧ (fs.map Prod.fst).Nodup ∧
        (∀ k ∈ fs.map Prod.fst, k ∈ firstFields.map Prod.fst) ∧
        (∀ k ∈ firstFields.map Prod.fst, k ∈ fs.map Prod.fst) ∧
        fs.all (fun p => isPrimitive p.2) = true) →
    encodeStep cfg delim fuel (.arrc key (Value.obj firstFields :: rest) depth) nodes
      = .ok out →
    out.1 =
      (strRepeat cfg.indentUnit depth ++
        (match key with | none => "" | some k => encodeKey k delim) ++
        "[" ++ toString (Value.obj firstFields :: rest).length ++ "]\x7b" ++
        String.intercalate (String.mk [delim])
          ((firstFields.map Prod.fst).map (fun f => encodeKey f delim)) ++
        "\x7d:") ::
      ((Value.obj firstFields :: rest).map rowOf).map (fun row =>
        strRepeat cfg.indentUnit (depth + 1) ++
          String.intercalate (String.mk [delim])
            ((firstFields.map Prod.fst).map (fun f =>
              encodePrimitive ((lookupField row f).getD .null) delim delim))) := by
  intro cfg delim fuel key firstFields rest depth nodes out huni h
  have hdt := detectTabular_of_uniform firstFields rest huni
  have hnp : (Value.obj firstFields :: rest).all isPrimitive = false := rfl
  match fuel with
  | 0 => exact Except.noConfusion h
  | fuel + 1 =>
    unfold encodeStep at h
    dsimp only at h
    simp only [bind, Except.bind, pure, Except.pure] at h
    split at h
    · exact Except.noConfusion h
    · split at h
      · -- key = some k
        split at h
        · exact Except.noConfusion h
        · split at h
          · exact Except.noConfusion h
          · split at h
            · rename_i hcon
              rw [hnp] at hcon
              exact Bool.noConfusion hcon
            · split at h
              · rename_i fields rows heq
                rw [hdt] at heq
                injection heq with h2
                have hfe := congrArg Prod.fst h2
                have hre := congrArg Prod.snd h2
                dsimp only at hfe hre
                subst hfe
                subst hre
                split at h
                · exact Except.noConfusion h
                · simp only [Except.ok.injEq] at h
                  subst h
                  rfl
              · rename_i heq
                rw [hdt] at heq
                exact Option.noConfusion heq
      · -- key = none
        split at h
        · exact Except.noConfusion h
        · split at h
          · rename_i hcon
            rw [hnp] at hcon
            exact Bool.noConfusion hcon
          · split at h
            · rename_i fields rows heq
              rw [hdt] at heq
              injection heq with h2
              have hfe := congrArg Prod.fst h2
              have hre := congrArg Prod.snd h2
              dsimp only at hfe hre
              subst hfe
              subst hre
              split at h
              · exact Except.noConfusion h
              · simp only [Except.ok.injEq] at h
                subst h
                rfl
            · rename_i heq
              rw [hdt] at heq
              exact Option.noConfusion heq

/-- C6 witness: the tabular emission rule applied to
`users: [{id: 1, name: "a"}, {name: "b", id: 2}]` (the second element's
keys in a different order). -/
theorem C6_tabular_emission_witness :
    ((["users[2]\x7bid,name\x7d:", "  1,a", "  2,b"], 5) : List String × Nat).1 =
      (strRepeat "  " 0 ++
        (match (some "users" : Option String) with
         | none => "" | some k => encodeKey k ',') ++
        "[" ++ toString ((Value.obj [("id", Value.num 1), ("name", Value.str "a")] ::
          [Value.obj [("name", Value.str "b"), ("id", Value.num 2)]]).length) ++ "]\x7b" ++
        String.intercalate (String.mk [','])
          ((([("id", Value.num 1), ("name", Value.str "a")] :
              List (String × Value)).map Prod.fst).map (fun f => encodeKey f ',')) ++
        "\x7d:") ::
      (((Value.obj [("id", Value.num 1), ("name", Value.str "a")] ::
          [Value.obj [("name", Value.str "b"), ("id", Value.num 2)]]).map rowOf).map (fun row =>
        strRepeat "  " (0 + 1) ++
          String.intercalate (String.mk [','])
            ((([("id", Value.num 1), ("name", Value.str "a")] :
                List (String × Value)).map Prod.fst).map (fun f =>
              encodePrimitive ((lookupField row f).getD .null) ',' ',')))) :=
  C6_tabular_emission ⟨DEFAULT_LIMITS, "  ", false⟩ ',' 30 (some "users")
    [("id", Value.num 1), ("name", Value.str "a")]
    [Value.obj [("name", Value.str "b"), ("id", Value.num 2)]] 0 0
    (["users[2]\x7bid,name\x7d:", "  1,a", "  2,b"], 5)
    (by
      intro item hitem
      simp only [List.mem_cons, List.not_mem_nil, or_false] at hitem
      rcases hitem with h | h
      · subst h
        exact ⟨[("id", Value.num 1), ("name", Value.str "a")], rfl, by simp, by decide,
          by decide, by decide, rfl⟩
      · subst h
        exact ⟨[("name", Value.str "b"), ("id", Value.num 2)], rfl, by simp, by decide,
          by decide, by decide, rfl⟩)
    rfl
